import Mathlib

/-!
Verification of the vimwiki-rs parsing and document-model engine.

The definitions below shallowly embed the core types of the repository:
the location model (`Position`, `Region`, `Span`, `LazyRegion`,
`Located`), the parser error model (`LangParserError`), the element
model (`Text`, `DecoratedText`, `Link`, `InlineElement`,
`DefinitionList`, `Paragraph`) together with their rendering,
borrowed/owned conversions and the two equality relations, and the
paragraph/inline grammar productions.  Components of the repository
whose source is not available (the `Span` cursor internals and the
inline parsers) are modelled from the specification and marked as such
in their doc comments.
-/

namespace Vimwiki

/-- Position of a character in a document, 1-indexed line and column
(source type `Position` used by `location/mod.rs`). -/
structure Position where
  line : Nat
  column : Nat
deriving DecidableEq

/-- Region between a start and an end position, inclusive end
(source type `Region`); the default region is zero-width at (0, 0). -/
structure Region where
  start : Position
  «end» : Position
deriving DecidableEq

/-- Default region: zero-width at (0, 0). -/
def Region.zero : Region := ⟨⟨0, 0⟩, ⟨0, 0⟩⟩

/-- Modelled from the spec: the `Span` cursor type (missing from `src`,
only its users are present): an immutable view over the input carrying
the full buffer, the absolute byte offset of the current position, and
the remaining length of the viewed slice.  Line and column are
1-indexed and consistent with the characters consumed before `offset`.
The model works at `Char` granularity (ASCII inputs). -/
structure Span where
  full : List Char
  offset : Nat
  len : Nat
deriving DecidableEq

/-- Count of newline characters in a character list. -/
def countNewlines (cs : List Char) : Nat :=
  (cs.filter (fun c => c == '\n')).length

/-- Characters after the last newline of a list (the whole list when it
has no newline). -/
def afterLastNewline (cs : List Char) : List Char :=
  (cs.reverse.takeWhile (fun c => c != '\n')).reverse

/-- Line number (1-indexed) of offset `i` within buffer `full`. -/
def lineAt (full : List Char) (i : Nat) : Nat :=
  1 + countNewlines (full.take i)

/-- Column number (1-indexed) of offset `i` within buffer `full`. -/
def colAt (full : List Char) (i : Nat) : Nat :=
  1 + (afterLastNewline (full.take i)).length

/-- Line/column position of offset `i` within buffer `full`. -/
def posAt (full : List Char) (i : Nat) : Position :=
  ⟨lineAt full i, colAt full i⟩

/-- Source `Span::line`. -/
def Span.line (sp : Span) : Nat := lineAt sp.full sp.offset

/-- Source `Span::column`. -/
def Span.column (sp : Span) : Nat := colAt sp.full sp.offset

/-- Source `Span::start_offset`: the absolute consumed offset. -/
def Span.start_offset (sp : Span) : Nat := sp.offset

/-- Source `Span::remaining_len`. -/
def Span.remaining_len (sp : Span) : Nat := sp.len

/-- Source `Span::starting_at`: sub-slice beginning `n` characters past
the current position. -/
def Span.starting_at (sp : Span) (n : Nat) : Span :=
  ⟨sp.full, sp.offset + n, sp.len - n⟩

/-- Source `Span::as_unsafe_remaining_str`: the text the span views. -/
def Span.as_unsafe_remaining_str (sp : Span) : List Char :=
  (sp.full.drop sp.offset).take sp.len

/-- Span viewing a whole fresh input string. -/
def Span.fromString (s : String) : Span :=
  ⟨s.data, 0, s.data.length⟩

/-- Source `LazyRegion`: a region either still borrowed from a cursor
snapshot or already materialized. -/
inductive LazyRegion where
  | borrowed (span : Span)
  | owned (region : Region)
deriving DecidableEq

/-- Source `impl From<Span> for Region`: start is the span's current
position; for a nonempty span the end is measured after moving to the
last viewed character (`starting_at(remaining_len() - 1)`), and a
zero-length span keeps its position for both ends. -/
def Region.ofSpan (span : Span) : Region :=
  let start_pos := Position.mk span.line span.column
  let span2 :=
    if span.remaining_len > 0 then span.starting_at (span.remaining_len - 1)
    else span
  let end_pos := Position.mk span2.line span2.column
  ⟨start_pos, end_pos⟩

/-- Source `impl From<LazyRegion> for Region` (materialization). -/
def Region.ofLazy : LazyRegion → Region
  | .borrowed span => Region.ofSpan span
  | .owned region => region

/-- Source `Located<T>`: an element together with its lazily computed
region. -/
structure Located (α : Type) where
  element : α
  lazy_region : LazyRegion

/-- Source `impl From<T> for Located<T>`: wraps a value with the
default (owned, zero) region. -/
def Located.fromElement {α : Type} (t : α) : Located α :=
  ⟨t, .owned Region.zero⟩

/-- Source `Located::map`: transforms the element, keeping the region. -/
def Located.map {α β : Type} (l : Located α) (f : α → β) : Located β :=
  ⟨f l.element, l.lazy_region⟩

/-- Source `impl PartialEq for Located<T>`: equality uses only the
inner element, never the region. -/
def locatedBeq {α : Type} (eq : α → α → Bool) (l1 l2 : Located α) : Bool :=
  eq l1.element l2.element

/-- Source `impl PartialEq<T> for Located<T>`: comparison of a located
value against a bare inner value uses only the inner element. -/
def locatedBeqInner {α : Type} (eq : α → α → Bool) (l : Located α) (t : α) : Bool :=
  eq l.element t

/-- Source `impl Hash for Located<T>`: only the inner element is fed to
the hasher (the hasher is abstracted as a function `α → Nat`). -/
def locatedHash {α : Type} (h : α → Nat) (l : Located α) : Nat :=
  h l.element

/-- Source `LangParserError` (`parsers/errors.rs`): a context label, the
span at the point of failure, and an optional chained cause. -/
inductive LangParserError where
  | mk (ctx : String) (input : Span) (next : Option LangParserError)

/-- Context label of an error. -/
def LangParserError.ctx : LangParserError → String
  | .mk c _ _ => c

/-- Failure span of an error. -/
def LangParserError.input : LangParserError → Span
  | .mk _ i _ => i

/-- Chained cause of an error. -/
def LangParserError.next : LangParserError → Option LangParserError
  | .mk _ _ n => n

/-- Source `LangParserError::or`: picks the error whose failure span
has progressed further (greater start offset); otherwise — including
ties — the second error. -/
def LangParserError.or (self other : LangParserError) : LangParserError :=
  if self.input.start_offset > other.input.start_offset then self else other

/-- Source `LangParserError::from_ctx`. -/
def LangParserError.from_ctx (input : Span) (c : String) : LangParserError :=
  .mk c input none

/-- Source `LangParserError::unsupported`. -/
def LangParserError.unsupported : LangParserError :=
  .mk ("Unsupported") (Span.fromString ("")) none

/-- Byte slice `cs[..n]` of Rust: defined only when the slice has at
least `n` items; `none` models the out-of-range panic. -/
def sliceUpTo (cs : List Char) (n : Nat) : Option (List Char) :=
  if cs.length < n then none else some (cs.take n)

/-- Source `impl Display for LangParserError`: renders context, line
and column, then `Input: ` followed by the first 100 bytes of the
remaining input taken by the byte-slice `[..100]`, then the displayed
cause chain.  A `none` result models a panic during formatting. -/
def LangParserError.display : LangParserError → Option String
  | .mk c input next =>
    match sliceUpTo input.as_unsafe_remaining_str 100 with
    | none => none
    | some preview =>
      let first :=
        c ++ (": Line ") ++ toString input.line ++ (", Column ") ++
          toString input.column ++ ("\n") ++ ("Input: ") ++
          String.mk preview ++ ("\n")
      match next with
      | none => some first
      | some n =>
        match n.display with
        | none => none
        | some restStr => some (first ++ restStr)

/-- Model of Rust `Cow<str>`: a string either borrowed from the input
buffer or independently owned.  `PartialEq` on `Cow` compares the
underlying string values, ignoring the storage mode. -/
inductive CowStr where
  | borrowed (s : String)
  | owned (s : String)
deriving DecidableEq

/-- Underlying string value of a cow. -/
def CowStr.value : CowStr → String
  | .borrowed s => s
  | .owned s => s

/-- Rust `PartialEq` for `Cow<str>`: value comparison. -/
def CowStr.beq (a b : CowStr) : Bool := a.value == b.value

/-- Re-view a cow as borrowed (no copy). -/
def CowStr.as_borrowed (c : CowStr) : CowStr := .borrowed c.value

/-- Deep-copy a cow into owned storage. -/
def CowStr.to_owned (c : CowStr) : CowStr := .owned c.value

/-- Source `Text` (`typefaces.rs`): plain text with no decorations. -/
structure Text where
  content : CowStr
deriving DecidableEq

/-- Source `impl Display for Text` (derived): the text itself. -/
def Text.render (t : Text) : String := t.content.value

/-- Source derived `PartialEq` for `Text`: cow value comparison. -/
def Text.beq (a b : Text) : Bool := CowStr.beq a.content b.content

/-- Source `impl StrictEq for Text`: same as `PartialEq`. -/
def Text.strictEq (a b : Text) : Bool := Text.beq a b

/-- Source `Text::as_borrowed`. -/
def Text.as_borrowed (t : Text) : Text := ⟨t.content.as_borrowed⟩

/-- Source `Text::into_owned`. -/
def Text.into_owned (t : Text) : Text := ⟨t.content.to_owned⟩

/-- Source `Keyword` (`typefaces.rs`): closed literal set. -/
inductive Keyword where
  | todo
  | done
  | started
  | fixme
  | fixed
  | xxx
deriving DecidableEq

/-- Source `impl Display for Keyword`: the fixed literal spellings. -/
def Keyword.render : Keyword → String
  | .todo => "TODO"
  | .done => "DONE"
  | .started => "STARTED"
  | .fixme => "FIXME"
  | .fixed => "FIXED"
  | .xxx => "XXX"

/-- Modelled from the spec: the link element (the links module is not
under `src`): five variants, each carrying a target and, where the
syntax has one, an optional description. -/
inductive Link where
  | wiki (target : CowStr) (desc : Option CowStr)
  | diary (target : CowStr) (desc : Option CowStr)
  | raw (target : CowStr)
  | transclusion (target : CowStr) (desc : Option CowStr)
  | interwiki (target : CowStr) (desc : Option CowStr)
deriving DecidableEq

/-- Value view of an optional cow. -/
def optValue (o : Option CowStr) : Option String := o.map CowStr.value

/-- Link structural equality: same variant, same target and description
values (cow storage ignored, as in Rust `Cow` equality). -/
def Link.strictEq : Link → Link → Bool
  | .wiki t1 d1, .wiki t2 d2 => t1.value == t2.value && optValue d1 == optValue d2
  | .diary t1 d1, .diary t2 d2 => t1.value == t2.value && optValue d1 == optValue d2
  | .raw t1, .raw t2 => t1.value == t2.value
  | .transclusion t1 d1, .transclusion t2 d2 =>
      t1.value == t2.value && optValue d1 == optValue d2
  | .interwiki t1 d1, .interwiki t2 d2 =>
      t1.value == t2.value && optValue d1 == optValue d2
  | _, _ => false

/-- Link re-viewed with borrowed storage. -/
def Link.to_borrowed : Link → Link
  | .wiki t d => .wiki t.as_borrowed (d.map CowStr.as_borrowed)
  | .diary t d => .diary t.as_borrowed (d.map CowStr.as_borrowed)
  | .raw t => .raw t.as_borrowed
  | .transclusion t d => .transclusion t.as_borrowed (d.map CowStr.as_borrowed)
  | .interwiki t d => .interwiki t.as_borrowed (d.map CowStr.as_borrowed)

/-- Link deep-copied into owned storage. -/
def Link.into_owned : Link → Link
  | .wiki t d => .wiki t.to_owned (d.map CowStr.to_owned)
  | .diary t d => .diary t.to_owned (d.map CowStr.to_owned)
  | .raw t => .raw t.to_owned
  | .transclusion t d => .transclusion t.to_owned (d.map CowStr.to_owned)
  | .interwiki t d => .interwiki t.to_owned (d.map CowStr.to_owned)

/-- Rendered text of a link: its target (the claims never render a
link; only structural facts about links are used). -/
def Link.render : Link → String
  | .wiki t _ => t.value
  | .diary t _ => t.value
  | .raw t => t.value
  | .transclusion t _ => t.value
  | .interwiki t _ => t.value

/-- Source `MathInline`: inline math content. -/
structure MathInline where
  content : CowStr
deriving DecidableEq

/-- Rendered text of inline math: its content. -/
def MathInline.render (m : MathInline) : String := m.content.value

/-- MathInline structural equality: content value comparison. -/
def MathInline.strictEq (a b : MathInline) : Bool := a.content.value == b.content.value

/-- MathInline re-viewed with borrowed storage. -/
def MathInline.as_borrowed (m : MathInline) : MathInline := ⟨m.content.as_borrowed⟩

/-- MathInline deep-copied into owned storage. -/
def MathInline.into_owned (m : MathInline) : MathInline := ⟨m.content.to_owned⟩

mutual
/-- Source `DecoratedTextContent` (`typefaces.rs`): content allowed
inside a decoration. -/
inductive DecoratedTextContent where
  | text (t : Text)
  | decoratedText (d : DecoratedText)
  | keyword (k : Keyword)
  | link (l : Link)
/-- Source `DecoratedText` (`typefaces.rs`): a series of content with a
typeface decoration. -/
inductive DecoratedText where
  | bold (contents : List (Located DecoratedTextContent))
  | italic (contents : List (Located DecoratedTextContent))
  | strikeout (contents : List (Located DecoratedTextContent))
  | superscript (contents : List (Located DecoratedTextContent))
  | subscript (contents : List (Located DecoratedTextContent))
end

/-- Source `DecoratedText::as_contents`: the contents of any variant. -/
def DecoratedText.as_contents : DecoratedText → List (Located DecoratedTextContent)
  | .bold xs => xs
  | .italic xs => xs
  | .strikeout xs => xs
  | .superscript xs => xs
  | .subscript xs => xs

mutual
/-- Source `impl Display for DecoratedTextContent` (derived): display
of the inner variant. -/
def DecoratedTextContent.render : DecoratedTextContent → String
  | .text t => t.render
  | .decoratedText d => d.render
  | .keyword k => k.render
  | .link l => l.render
/-- Source `impl Display for DecoratedText`: writes the display of each
content element in order — the decoration markers themselves are not
written. -/
def DecoratedText.render : DecoratedText → String
  | .bold xs => renderDTCList xs
  | .italic xs => renderDTCList xs
  | .strikeout xs => renderDTCList xs
  | .superscript xs => renderDTCList xs
  | .subscript xs => renderDTCList xs
/-- Concatenated display of a list of located decorated-text contents
(display of a located value is the display of its element). -/
def renderDTCList : List (Located DecoratedTextContent) → String
  | [] => ""
  | ⟨e, _⟩ :: xs => e.render ++ renderDTCList xs
end

mutual
/-- Source `impl StrictEq for DecoratedTextContent`: strict equality on
matching inner variants. -/
def DecoratedTextContent.strictEq : DecoratedTextContent → DecoratedTextContent → Bool
  | .text a, .text b => Text.strictEq a b
  | .decoratedText a, .decoratedText b => DecoratedText.strictEq a b
  | .keyword a, .keyword b => decide (a = b)
  | .link a, .link b => Link.strictEq a b
  | _, _ => false
/-- Source `impl StrictEq for DecoratedText`: strict equality on
matching variants, pairwise on contents. -/
def DecoratedText.strictEq : DecoratedText → DecoratedText → Bool
  | .bold a, .bold b => strictEqDTCList a b
  | .italic a, .italic b => strictEqDTCList a b
  | .strikeout a, .strikeout b => strictEqDTCList a b
  | .superscript a, .superscript b => strictEqDTCList a b
  | .subscript a, .subscript b => strictEqDTCList a b
  | _, _ => false
/-- Pairwise strict equality of located content lists (strict equality
of a located value is strict equality of its element). -/
def strictEqDTCList : List (Located DecoratedTextContent) → List (Located DecoratedTextContent) → Bool
  | [], [] => true
  | ⟨a, _⟩ :: as0, ⟨b, _⟩ :: bs0 => DecoratedTextContent.strictEq a b && strictEqDTCList as0 bs0
  | _, _ => false
end

mutual
/-- Source `DecoratedTextContent::to_borrowed`. -/
def DecoratedTextContent.to_borrowed : DecoratedTextContent → DecoratedTextContent
  | .text t => .text t.as_borrowed
  | .decoratedText d => .decoratedText d.to_borrowed
  | .keyword k => .keyword k
  | .link l => .link l.to_borrowed
/-- Source `DecoratedText::to_borrowed`: each located content re-viewed
borrowed, regions kept. -/
def DecoratedText.to_borrowed : DecoratedText → DecoratedText
  | .bold xs => .bold (mapDTCToBorrowed xs)
  | .italic xs => .italic (mapDTCToBorrowed xs)
  | .strikeout xs => .strikeout (mapDTCToBorrowed xs)
  | .superscript xs => .superscript (mapDTCToBorrowed xs)
  | .subscript xs => .subscript (mapDTCToBorrowed xs)
/-- Map `to_borrowed` over located contents, keeping regions. -/
def mapDTCToBorrowed : List (Located DecoratedTextContent) → List (Located DecoratedTextContent)
  | [] => []
  | ⟨e, r⟩ :: xs => ⟨e.to_borrowed, r⟩ :: mapDTCToBorrowed xs
end

mutual
/-- Source `DecoratedTextContent::into_owned`. -/
def DecoratedTextContent.into_owned : DecoratedTextContent → DecoratedTextContent
  | .text t => .text t.into_owned
  | .decoratedText d => .decoratedText d.into_owned
  | .keyword k => .keyword k
  | .link l => .link l.into_owned
/-- Source `DecoratedText::into_owned`: each located content
deep-copied, regions kept. -/
def DecoratedText.into_owned : DecoratedText → DecoratedText
  | .bold xs => .bold (mapDTCIntoOwned xs)
  | .italic xs => .italic (mapDTCIntoOwned xs)
  | .strikeout xs => .strikeout (mapDTCIntoOwned xs)
  | .superscript xs => .superscript (mapDTCIntoOwned xs)
  | .subscript xs => .subscript (mapDTCIntoOwned xs)
/-- Map `into_owned` over located contents, keeping regions. -/
def mapDTCIntoOwned : List (Located DecoratedTextContent) → List (Located DecoratedTextContent)
  | [] => []
  | ⟨e, r⟩ :: xs => ⟨e.into_owned, r⟩ :: mapDTCIntoOwned xs
end

/-- Source `InlineElement` (spec §3 inline elements): text, decorated
text, keyword, link, or inline math. -/
inductive InlineElement where
  | text (t : Text)
  | decoratedText (d : DecoratedText)
  | keyword (k : Keyword)
  | link (l : Link)
  | math (m : MathInline)

/-- Display of an inline element: display of the inner variant. -/
def InlineElement.render : InlineElement → String
  | .text t => t.render
  | .decoratedText d => d.render
  | .keyword k => k.render
  | .link l => l.render
  | .math m => m.render

/-- Strict equality of inline elements: matching variants, strict
equality inside. -/
def InlineElement.strictEq : InlineElement → InlineElement → Bool
  | .text a, .text b => Text.strictEq a b
  | .decoratedText a, .decoratedText b => DecoratedText.strictEq a b
  | .keyword a, .keyword b => decide (a = b)
  | .link a, .link b => Link.strictEq a b
  | .math a, .math b => MathInline.strictEq a b
  | _, _ => false

/-- Inline element re-viewed with borrowed storage. -/
def InlineElement.to_borrowed : InlineElement → InlineElement
  | .text t => .text t.as_borrowed
  | .decoratedText d => .decoratedText d.to_borrowed
  | .keyword k => .keyword k
  | .link l => .link l.to_borrowed
  | .math m => .math m.as_borrowed

/-- Inline element deep-copied into owned storage. -/
def InlineElement.into_owned : InlineElement → InlineElement
  | .text t => .text t.into_owned
  | .decoratedText d => .decoratedText d.into_owned
  | .keyword k => .keyword k
  | .link l => .link l.into_owned
  | .math m => .math m.into_owned

/-- Modelled from the spec: `InlineElementContainer` (its module is not
under `src`): an ordered sequence of located inline elements; display
concatenates the displays of the elements. -/
structure InlineElementContainer where
  elements : List (Located InlineElement)

/-- Concatenated display of the container's elements. -/
def InlineElementContainer.render (c : InlineElementContainer) : String :=
  (c.elements.map (fun l => l.element.render)).foldr (· ++ ·) ""

/-- Pairwise strict equality of containers. -/
def InlineElementContainer.strictEq (a b : InlineElementContainer) : Bool :=
  a.elements.length == b.elements.length &&
    (List.zip a.elements b.elements).all
      (fun p => InlineElement.strictEq p.1.element p.2.element)

/-- Container re-viewed with borrowed storage, regions kept. -/
def InlineElementContainer.to_borrowed (c : InlineElementContainer) : InlineElementContainer :=
  ⟨c.elements.map (fun l => l.map InlineElement.to_borrowed)⟩

/-- Container deep-copied into owned storage, regions kept. -/
def InlineElementContainer.into_owned (c : InlineElementContainer) : InlineElementContainer :=
  ⟨c.elements.map (fun l => l.map InlineElement.into_owned)⟩

/-- Source `Paragraph` (`blocks/paragraphs.rs`): inline content. -/
structure Paragraph where
  content : InlineElementContainer

/-- Source `Paragraph::to_borrowed`. -/
def Paragraph.to_borrowed (p : Paragraph) : Paragraph := ⟨p.content.to_borrowed⟩

/-- Source `Paragraph::into_owned`. -/
def Paragraph.into_owned (p : Paragraph) : Paragraph := ⟨p.content.into_owned⟩

/-- Strict equality of paragraphs: strict equality of content. -/
def Paragraph.strictEq (a b : Paragraph) : Bool :=
  InlineElementContainer.strictEq a.content b.content

/-- Source `DefinitionListValue` (`definitions.rs`): newtype over an
inline element container, used for both terms and definitions. -/
structure DefinitionListValue where
  container : InlineElementContainer

/-- Source `impl Display for DefinitionListValue` (derived): display of
the inner container. -/
def DefinitionListValue.render (v : DefinitionListValue) : String :=
  v.container.render

/-- Source `impl PartialEq for DefinitionListValue`: comparison of the
rendered strings. -/
def DefinitionListValue.beq (a b : DefinitionListValue) : Bool :=
  a.render == b.render

/-- Source `impl Hash for DefinitionListValue`: the rendered string is
fed to the hasher (abstracted as a function on strings). -/
def DefinitionListValue.hashWith (h : String → Nat) (v : DefinitionListValue) : Nat :=
  h v.render

/-- Source `impl StrictEq for DefinitionListValue`: strict equality of
the inner container. -/
def DefinitionListValue.strictEq (a b : DefinitionListValue) : Bool :=
  InlineElementContainer.strictEq a.container b.container

/-- Source `DefinitionListValue::to_borrowed`. -/
def DefinitionListValue.to_borrowed (v : DefinitionListValue) : DefinitionListValue :=
  ⟨v.container.to_borrowed⟩

/-- Source `DefinitionListValue::into_owned`. -/
def DefinitionListValue.into_owned (v : DefinitionListValue) : DefinitionListValue :=
  ⟨v.container.into_owned⟩

/-- Source `impl From<&str> for DefinitionListValue`: a single located
text run wrapped in a container. -/
def DefinitionListValue.fromStr (s : String) : DefinitionListValue :=
  ⟨⟨[Located.fromElement (.text ⟨.borrowed s⟩)]⟩⟩

/-- Source `DefinitionList` (`definitions.rs`): a mapping from located
terms to their located definitions.  The `HashMap` is modelled as an
association list with hash-map key semantics (keys compared by the
`Located` equality, i.e. rendered term text). -/
structure DefinitionList where
  mapping : List (Located DefinitionListValue × List (Located DefinitionListValue))

/-- Key equality of the mapping: `Located` equality, which is the
rendered-text equality of the term values. -/
def dlKeyBeq (a b : Located DefinitionListValue) : Bool :=
  locatedBeq DefinitionListValue.beq a b

/-- Rust `HashMap::insert` semantics: when an equal key is present its
value is replaced (the stored key is kept); otherwise the pair is
added. -/
def dlInsert (m : List (Located DefinitionListValue × List (Located DefinitionListValue)))
    (k : Located DefinitionListValue) (v : List (Located DefinitionListValue)) :
    List (Located DefinitionListValue × List (Located DefinitionListValue)) :=
  match m with
  | [] => [(k, v)]
  | (k0, v0) :: rest =>
    if dlKeyBeq k0 k then (k0, v) :: rest
    else (k0, v0) :: dlInsert rest k v

/-- Source `impl From<Vec<(Located<Term>, Vec<Located<Definition>>)>>
for DefinitionList`: inserts each pair in order into the mapping. -/
def DefinitionList.fromVec
    (ps : List (Located DefinitionListValue × List (Located DefinitionListValue))) :
    DefinitionList :=
  ⟨ps.foldl (fun m p => dlInsert m p.1 p.2) []⟩

/-- Source `DefinitionList::get`: looks the term up by rendered-text
key equality. -/
def DefinitionList.get (dl : DefinitionList) (term : DefinitionListValue) :
    Option (List (Located DefinitionListValue)) :=
  (dl.mapping.find? (fun p => dlKeyBeq p.1 (Located.fromElement term))).map
    (fun p => p.2)

/-- Source `DefinitionList::to_borrowed`: keys and definitions
re-viewed borrowed, regions kept. -/
def DefinitionList.to_borrowed (dl : DefinitionList) : DefinitionList :=
  ⟨dl.mapping.map (fun p =>
    (p.1.map DefinitionListValue.to_borrowed,
     p.2.map (fun x => x.map DefinitionListValue.to_borrowed)))⟩

/-- Source `DefinitionList::into_owned`: keys and definitions
deep-copied, regions kept. -/
def DefinitionList.into_owned (dl : DefinitionList) : DefinitionList :=
  ⟨dl.mapping.map (fun p =>
    (p.1.map DefinitionListValue.into_owned,
     p.2.map (fun x => x.map DefinitionListValue.into_owned)))⟩

/-- Source `impl StrictEq for DefinitionList`: equal sizes and, for
each entry, a strictly equal key with strictly equal definitions in the
other mapping (looked up by rendered-text key equality). -/
def DefinitionList.strictEq (a b : DefinitionList) : Bool :=
  a.mapping.length == b.mapping.length &&
    a.mapping.all (fun p =>
      match b.mapping.find? (fun q => dlKeyBeq q.1 p.1) with
      | none => false
      | some q =>
        DefinitionListValue.strictEq p.1.element q.1.element &&
          (p.2.length == q.2.length &&
            (List.zip p.2 q.2).all
              (fun r => DefinitionListValue.strictEq r.1.element r.2.element)))

/-- Term built from the single text run `term` (the claim's first
insertion key). -/
def termSingle : DefinitionListValue := DefinitionListValue.fromStr ("term")

/-- Term built from four concatenated text runs `t`, `e`, `r`, `m`
(the claim's second insertion key). -/
def termSplit : DefinitionListValue :=
  ⟨⟨[Located.fromElement (.text ⟨.borrowed ("t")⟩),
     Located.fromElement (.text ⟨.borrowed ("e")⟩),
     Located.fromElement (.text ⟨.borrowed ("r")⟩),
     Located.fromElement (.text ⟨.borrowed ("m")⟩)]⟩⟩

/-- Definitions attached to the first insertion. -/
def defsOne : List (Located DefinitionListValue) :=
  [Located.fromElement (DefinitionListValue.fromStr ("def1"))]

/-- Definitions attached to the second insertion. -/
def defsTwo : List (Located DefinitionListValue) :=
  [Located.fromElement (DefinitionListValue.fromStr ("def2"))]

/-- Definition list built by inserting `termSingle` with `defsOne` and
then `termSplit` with `defsTwo`. -/
def dlCollide : DefinitionList :=
  DefinitionList.fromVec
    [(Located.fromElement termSingle, defsOne),
     (Located.fromElement termSplit, defsTwo)]

/-- Parser state for the grammar productions: the character immediately
before the current position (`none` at the start of the buffer) and the
remaining input.  Only success/failure, produced elements and remaining
input are modelled; regions are not tracked by the parser model. -/
structure PSpan where
  prev : Option Char
  rest : List Char
deriving DecidableEq

/-- Advance the parser state by up to `n` characters. -/
def PSpan.advanceN : PSpan → Nat → PSpan
  | p, 0 => p
  | p, n + 1 =>
    match p.rest with
    | [] => p
    | c :: rest => PSpan.advanceN ⟨some c, rest⟩ n

/-- True for the whitespace characters recognized by `space1` (space
and tab). -/
def isSpaceTab (c : Char) : Bool := c == ' ' || c == '\t'

/-- Test whether a literal is a prefix of the input. -/
def litMatches : List Char → List Char → Bool
  | [], _ => true
  | _ :: _, [] => false
  | a :: as0, b :: bs0 => a == b && litMatches as0 bs0

/-- Modelled from the spec: `beginning_of_line` (the parser utils are
not under `src`): succeeds without consuming iff the cursor is at
column 1, i.e. at the buffer start or right after a newline. -/
def beginning_of_line (p : PSpan) : Option (Unit × PSpan) :=
  match p.prev with
  | none => some ((), p)
  | some c => if c = '\n' then some ((), p) else none

/-- The nom `space1` combinator: consumes one or more spaces/tabs. -/
def space1 (p : PSpan) : Option (Unit × PSpan) :=
  let n := (p.rest.takeWhile isSpaceTab).length
  if n = 0 then none else some ((), p.advanceN n)

/-- The nom `not` combinator: succeeds without consuming iff the inner
parser fails. -/
def notP {β : Type} (q : PSpan → Option (β × PSpan)) (p : PSpan) :
    Option (Unit × PSpan) :=
  match q p with
  | some _ => none
  | none => some ((), p)

/-- Modelled from the spec: measure of `blank_line` — the number of
consumed characters of a line holding only whitespace, terminated by a
newline (consumed) or the end of input; `none` when the line is not
blank. -/
def blankLineCount : List Char → Option Nat
  | [] => some 0
  | c :: rest =>
    if c = '\n' then some 1
    else if isSpaceTab c then (blankLineCount rest).map (· + 1) else none

/-- Modelled from the spec: `blank_line` (the parser utils are not
under `src`). -/
def blank_line (p : PSpan) : Option (Unit × PSpan) :=
  match blankLineCount p.rest with
  | some n => some ((), p.advanceN n)
  | none => none

/-- Modelled from the spec: `end_of_line_or_input` — consumes a newline
or succeeds at the end of input. -/
def end_of_line_or_input (p : PSpan) : Option (Unit × PSpan) :=
  match p.rest with
  | '\n' :: rest => some ((), ⟨some '\n', rest⟩)
  | [] => some ((), p)
  | _ => none

/-- The closed, case-sensitive keyword literal set. -/
def keywordLiterals : List (List Char × Keyword) :=
  [(['T', 'O', 'D', 'O'], .todo), (['D', 'O', 'N', 'E'], .done),
   (['S', 'T', 'A', 'R', 'T', 'E', 'D'], .started),
   (['F', 'I', 'X', 'M', 'E'], .fixme), (['F', 'I', 'X', 'E', 'D'], .fixed),
   (['X', 'X', 'X'], .xxx)]

/-- Modelled from the spec: the keyword production — recognizes only
the closed literal set, case-sensitively. -/
def parseKeyword (p : PSpan) : Option (Keyword × PSpan) :=
  match keywordLiterals.find? (fun kw => litMatches kw.1 p.rest) with
  | some kw => some (kw.2, p.advanceN kw.1.length)
  | none => none

/-- Characters of a wiki-link body up to the closing double bracket;
fails when the line or input ends before the brackets close. -/
def takeUntilClose : List Char → Option (List Char)
  | [] => none
  | '\n' :: _ => none
  | ']' :: ']' :: _ => some []
  | c :: rest =>
    match takeUntilClose rest with
    | some inner => some (c :: inner)
    | none => none

/-- Modelled from the spec: the wiki-link production
`[[target]]`/`[[target|description]]`, closing on the same line. -/
def parseWikiLink (p : PSpan) : Option (Link × PSpan) :=
  match p.rest with
  | '[' :: '[' :: rest =>
    match takeUntilClose rest with
    | none => none
    | some inner =>
      if inner.isEmpty then none
      else
        let target := inner.takeWhile (fun c => c != '|')
        let link : Link :=
          if target.length = inner.length then
            .wiki (CowStr.borrowed (String.mk inner)) none
          else
            .wiki (CowStr.borrowed (String.mk target))
              (some (CowStr.borrowed (String.mk (inner.drop (target.length + 1)))))
        some (link, p.advanceN (inner.length + 4))
  | _ => none

/-- Modelled from the spec: the inline-math production `$content$` with
nonempty content on one line. -/
def parseMathInline (p : PSpan) : Option (MathInline × PSpan) :=
  match p.rest with
  | '$' :: rest =>
    let content := rest.takeWhile (fun c => c != '$' && c != '\n')
    match rest.drop content.length with
    | '$' :: _ =>
      if content.isEmpty then none
      else some (⟨.borrowed (String.mk content)⟩, p.advanceN (content.length + 2))
    | _ => none
  | _ => none

/-- Prepend a text character to decoration content, coalescing with an
adjacent following text node (adjacent plain-text matches merge into a
single `Text` node). -/
def consTextDTC (c : Char) :
    List (Located DecoratedTextContent) → List (Located DecoratedTextContent)
  | ⟨.text t, _⟩ :: xs =>
      Located.fromElement (.text ⟨.borrowed (String.mk (c :: t.content.value.data))⟩) :: xs
  | xs => Located.fromElement (.text ⟨.borrowed (String.mk [c])⟩) :: xs

/-- Prepend a text character to inline content, coalescing with an
adjacent following text node. -/
def consTextIE (c : Char) :
    List (Located InlineElement) → List (Located InlineElement)
  | ⟨.text t, _⟩ :: xs =>
      Located.fromElement (.text ⟨.borrowed (String.mk (c :: t.content.value.data))⟩) :: xs
  | xs => Located.fromElement (.text ⟨.borrowed (String.mk [c])⟩) :: xs

mutual
/-- Modelled from the spec: the decorated-text production — an
opening/closing marker pair (`*` bold, `_` italic, `~~` strikeout, `^`
superscript, `,,` subscript) delimiting nonempty content parsed
recursively.  Fuel bounds the recursion depth. -/
def parseDecorated (fuel : Nat) (p : PSpan) : Option (DecoratedText × PSpan) :=
  match fuel with
  | 0 => none
  | f + 1 =>
    match parseDelimited f (['*']) p with
    | some (xs, q) => some (.bold xs, q)
    | none =>
      match parseDelimited f (['_']) p with
      | some (xs, q) => some (.italic xs, q)
      | none =>
        match parseDelimited f (['~', '~']) p with
        | some (xs, q) => some (.strikeout xs, q)
        | none =>
          match parseDelimited f (['^']) p with
          | some (xs, q) => some (.superscript xs, q)
          | none =>
            match parseDelimited f ([',', ',']) p with
            | some (xs, q) => some (.subscript xs, q)
            | none => none

/-- Open the given marker, parse content up to the closing marker, and
require the content to be nonempty (empty decorations are a parse
failure). -/
def parseDelimited (fuel : Nat) (marker : List Char) (p : PSpan) :
    Option (List (Located DecoratedTextContent) × PSpan) :=
  match fuel with
  | 0 => none
  | f + 1 =>
    if litMatches marker p.rest then
      match contentLoop f marker (p.advanceN marker.length) with
      | some (xs, q) => if xs.isEmpty then none else some (xs, q)
      | none => none
    else none

/-- Content loop inside a decoration: stops at the closing marker
(consuming it), fails at end of line or input, and otherwise parses a
nested decoration, a link or a keyword, falling back to one character
of coalesced plain text. -/
def contentLoop (fuel : Nat) (marker : List Char) (p : PSpan) :
    Option (List (Located DecoratedTextContent) × PSpan) :=
  match fuel with
  | 0 => none
  | f + 1 =>
    if litMatches marker p.rest then some ([], p.advanceN marker.length)
    else
      match p.rest with
      | [] => none
      | '\n' :: _ => none
      | c :: _ =>
        match parseDecorated f p with
        | some (d, q) =>
          match contentLoop f marker q with
          | some (xs, q2) => some (Located.fromElement (.decoratedText d) :: xs, q2)
          | none => none
        | none =>
          match parseWikiLink p with
          | some (l, q) =>
            match contentLoop f marker q with
            | some (xs, q2) => some (Located.fromElement (.link l) :: xs, q2)
            | none => none
          | none =>
            match parseKeyword p with
            | some (k, q) =>
              match contentLoop f marker q with
              | some (xs, q2) => some (Located.fromElement (.keyword k) :: xs, q2)
              | none => none
            | none =>
              match contentLoop f marker (p.advanceN 1) with
              | some (xs, q2) => some (consTextDTC c xs, q2)
              | none => none
end

/-- Modelled from the spec: the inline scan of one logical line — at
each position tries decorated text, then links, then math, then
keywords, falling back to plain text merged character by character;
stops (succeeding) at end of line or input. -/
def containerLoop (fuel : Nat) (p : PSpan) :
    Option (List (Located InlineElement) × PSpan) :=
  match fuel with
  | 0 => none
  | f + 1 =>
    match p.rest with
    | [] => some ([], p)
    | '\n' :: _ => some ([], p)
    | c :: _ =>
      match parseDecorated f p with
      | some (d, q) =>
        match containerLoop f q with
        | some (xs, q2) => some (Located.fromElement (.decoratedText d) :: xs, q2)
        | none => none
      | none =>
        match parseWikiLink p with
        | some (l, q) =>
          match containerLoop f q with
          | some (xs, q2) => some (Located.fromElement (.link l) :: xs, q2)
          | none => none
        | none =>
          match parseMathInline p with
          | some (m, q) =>
            match containerLoop f q with
            | some (xs, q2) => some (Located.fromElement (.math m) :: xs, q2)
            | none => none
          | none =>
            match parseKeyword p with
            | some (k, q) =>
              match containerLoop f q with
              | some (xs, q2) => some (Located.fromElement (.keyword k) :: xs, q2)
              | none => none
            | none =>
              match containerLoop f (p.advanceN 1) with
              | some (xs, q2) => some (consTextIE c xs, q2)
              | none => none

/-- Modelled from the spec: `inline_component_container` — a maximal
nonempty run of inline components on one line. -/
def inline_component_container (fuel : Nat) (p : PSpan) :
    Option (InlineElementContainer × PSpan) :=
  match containerLoop fuel p with
  | some ([], _) => none
  | some (xs, q) => some (⟨xs⟩, q)
  | none => none

/-- The `many1(delimited(not(blank_line), inline_component_container,
end_of_line_or_input))` loop of the paragraph production: an iteration
fails — stopping the loop and backtracking to the iteration start — on
a blank line, a failed container, or a missing end of line/input. -/
def lineLoop (fuel : Nat) (p : PSpan) :
    Option (List InlineElementContainer × PSpan) :=
  match fuel with
  | 0 => none
  | f + 1 =>
    match notP blank_line p with
    | none => some ([], p)
    | some _ =>
      match inline_component_container f p with
      | none => some ([], p)
      | some (c, q) =>
        match end_of_line_or_input q with
        | none => some ([], p)
        | some (_, q2) =>
          match lineLoop f q2 with
          | some (cs, q3) => some (c :: cs, q3)
          | none => none

/-- Source `paragraph` (`src/src/lang/parsers/vimwiki/paragraphs.rs`):
requires the beginning of a line, forbids indentation via
`not(space1)`, then takes one or more lines of inline content delimited
by `not(blank_line)` and `end_of_line_or_input`; the per-line
containers merge into the paragraph's content. -/
def paragraph (fuel : Nat) (p : PSpan) : Option (Paragraph × PSpan) :=
  match beginning_of_line p with
  | none => none
  | some _ =>
    match notP space1 p with
    | none => none
    | some _ =>
      match lineLoop fuel p with
      | none => none
      | some ([], _) => none
      | some (cs, q) =>
        some (⟨⟨(cs.map InlineElementContainer.elements).flatten⟩⟩, q)

/-- Run the paragraph production on a fresh input string, returning the
paragraph and the remaining input. -/
def parseParagraph (s : String) : Option (Paragraph × List Char) :=
  (paragraph (2 * s.data.length + 4) ⟨none, s.data⟩).map
    (fun r => (r.1, r.2.rest))

/-- Run the inline-container production on a fresh input string. -/
def parseInline (s : String) : Option (List (Located InlineElement) × List Char) :=
  (inline_component_container (2 * s.data.length + 4) ⟨none, s.data⟩).map
    (fun r => (r.1.elements, r.2.rest))

/-- Characters that begin no special inline production and are not
line terminators: not a decoration marker, not a math or link opener,
not the first letter of a keyword literal, not a newline. -/
def plainChar (c : Char) : Bool :=
  !(c == '*' || c == '_' || c == '~' || c == '^' || c == ',' || c == '$' ||
    c == '[' || c == '\n' || c == 'T' || c == 'D' || c == 'S' || c == 'F' ||
    c == 'X')

/-- A line of a paragraph body: nonempty, free of special characters
and newlines, and holding at least one non-whitespace character (an
all-whitespace line would be blank). -/
def goodLine (cs : List Char) : Prop :=
  cs ≠ [] ∧ (∀ c ∈ cs, plainChar c = true) ∧ ∃ c ∈ cs, isSpaceTab c = false

instance (cs : List Char) : Decidable (goodLine cs) := by
  unfold goodLine
  infer_instance

/-- Flatten lines into input text, each line followed by its newline. -/
def flatLines (lines : List (List Char)) : List Char :=
  (lines.map (fun l => l ++ ['\n'])).flatten

/-- The container produced for one plain line. -/
def lineToContainer (cs : List Char) : InlineElementContainer :=
  ⟨[Located.fromElement (.text ⟨.borrowed (String.mk cs)⟩)]⟩

/-- The expected paragraph node for a list of plain lines: one
coalesced text node per line, in order. -/
def mkPara (lines : List (List Char)) : Paragraph :=
  ⟨⟨lines.map (fun l => Located.fromElement (.text ⟨.borrowed (String.mk l)⟩))⟩⟩

/-- The bold node of the round-trip claim. -/
def boldDecorations : DecoratedText :=
  .bold [Located.fromElement (.text ⟨.borrowed ("decorations")⟩)]

/-- C5: materializing a region is idempotent on an already-owned region;
for a borrowed span snapshot it yields start = the span's current
position and end = the position of the last viewed (consumed) character
rather than one-past-the-end; a zero-length span at a position yields
start = end at that position. -/
theorem materialize_region_spec :
    (∀ r : Region, Region.ofLazy (.owned r) = r) ∧
    (∀ sp : Span, 0 < sp.len →
      Region.ofLazy (.borrowed sp) =
        ⟨posAt sp.full sp.offset, posAt sp.full (sp.offset + (sp.len - 1))⟩) ∧
    (∀ sp : Span, sp.len = 0 →
      Region.ofLazy (.borrowed sp) =
        ⟨posAt sp.full sp.offset, posAt sp.full sp.offset⟩) := by
  refine ⟨fun r => rfl, fun sp h => ?_, fun sp h => ?_⟩
  · simp only [Region.ofLazy, Region.ofSpan, Span.remaining_len,
      Span.starting_at, Span.line, Span.column, posAt]
    rw [if_pos h]
  · simp only [Region.ofLazy, Region.ofSpan, Span.remaining_len,
      Span.starting_at, Span.line, Span.column, posAt]
    rw [if_neg (by omega)]

/-- Check of `materialize_region_spec` at a concrete two-line buffer:
the span over the final two characters of a five-character buffer whose
third character is a newline materializes to start (2,1), end (2,2). -/
theorem materialize_region_spec_check :
    Region.ofLazy (.borrowed ⟨("ab\ncd").data, 3, 2⟩) = ⟨⟨2, 1⟩, ⟨2, 2⟩⟩ := by
  have h := materialize_region_spec.2.1 ⟨("ab\ncd").data, 3, 2⟩ (by decide)
  rw [h]; decide

/-- C6: equality of located values holds iff the inner elements are
equal, the hash is computed from the inner element only, and neither
equality nor hashing is influenced by the (lazy or materialized)
region, so identical content at different source positions is equal and
hash-collides. -/
theorem located_eq_hash_element_only :
    (∀ (α : Type) (eq : α → α → Bool) (l1 l2 : Located α),
      locatedBeq eq l1 l2 = eq l1.element l2.element) ∧
    (∀ (α : Type) (h : α → Nat) (l : Located α),
      locatedHash h l = h l.element) ∧
    (∀ (α : Type) (eq : α → α → Bool) (h : α → Nat) (e1 e2 : α)
      (r1 r2 r3 r4 : LazyRegion),
      locatedBeq eq ⟨e1, r1⟩ ⟨e2, r2⟩ = locatedBeq eq ⟨e1, r3⟩ ⟨e2, r4⟩ ∧
      locatedHash h ⟨e1, r1⟩ = locatedHash h ⟨e1, r3⟩) ∧
    (∀ (α : Type) [DecidableEq α] (l1 l2 : Located α),
      locatedBeq (fun a b => decide (a = b)) l1 l2 = true ↔
        l1.element = l2.element) := by
  refine ⟨fun _ _ _ _ => rfl, fun _ _ _ => rfl,
    fun _ _ _ _ _ _ _ _ _ => ⟨rfl, rfl⟩, fun α _ l1 l2 => ?_⟩
  simp [locatedBeq]

/-- Check of `located_eq_hash_element_only` at concrete values: two
located numbers with the same element but different regions are equal. -/
theorem located_eq_hash_element_only_check :
    locatedBeq (fun a b : Nat => decide (a = b))
      ⟨3, .owned ⟨⟨1, 2⟩, ⟨3, 4⟩⟩⟩ ⟨3, .owned Region.zero⟩ = true := by
  exact (located_eq_hash_element_only.2.2.2 Nat
    ⟨3, .owned ⟨⟨1, 2⟩, ⟨3, 4⟩⟩⟩ ⟨3, .owned Region.zero⟩).mpr rfl

/-- C10: a located value compares directly against a bare inner value,
the comparison holds iff the inner element equals that value, and the
region plays no role in the cross-type comparison. -/
theorem located_eq_inner_value :
    (∀ (α : Type) (eq : α → α → Bool) (l : Located α) (t : α),
      locatedBeqInner eq l t = eq l.element t) ∧
    (∀ (α : Type) (eq : α → α → Bool) (e t : α) (r1 r2 : LazyRegion),
      locatedBeqInner eq ⟨e, r1⟩ t = locatedBeqInner eq ⟨e, r2⟩ t) ∧
    (∀ (α : Type) [DecidableEq α] (l : Located α) (t : α),
      locatedBeqInner (fun a b => decide (a = b)) l t = true ↔
        l.element = t) := by
  refine ⟨fun _ _ _ _ => rfl, fun _ _ _ _ _ _ => rfl, fun α _ l t => ?_⟩
  simp [locatedBeqInner]

/-- Check of `located_eq_inner_value` at concrete values: a located
number with a nonzero region equals its bare inner value. -/
theorem located_eq_inner_value_check :
    locatedBeqInner (fun a b : Nat => decide (a = b))
      ⟨3, .owned ⟨⟨1, 2⟩, ⟨3, 4⟩⟩⟩ 3 = true := by
  exact (located_eq_inner_value.2.2 Nat ⟨3, .owned ⟨⟨1, 2⟩, ⟨3, 4⟩⟩⟩ 3).mpr rfl

/-- C1: for two failed alternatives over the same input buffer (length
`L`, each span viewing the rest of the buffer from its offset), the
choice combinator keeps the error whose failure cursor progressed
further — greater start offset, equivalently smaller remaining length —
and on ties (equal offsets) deterministically returns the second
alternative's error. -/
theorem or_picks_deepest_failure (e1 e2 : LangParserError) (L : Nat)
    (h1o : e1.input.offset ≤ L) (h2o : e2.input.offset ≤ L)
    (h1 : e1.input.len = L - e1.input.offset)
    (h2 : e2.input.len = L - e2.input.offset) :
    (e1.input.start_offset > e2.input.start_offset → e1.or e2 = e1) ∧
    (e1.input.start_offset ≤ e2.input.start_offset → e1.or e2 = e2) ∧
    (e1.input.remaining_len < e2.input.remaining_len → e1.or e2 = e1) ∧
    (e2.input.remaining_len ≤ e1.input.remaining_len → e1.or e2 = e2) := by
  unfold LangParserError.or
  simp only [Span.start_offset, Span.remaining_len] at *
  refine ⟨fun h => ?_, fun h => ?_, fun h => ?_, fun h => ?_⟩
  · rw [if_pos h]
  · rw [if_neg (by omega)]
  · rw [if_pos (by omega)]
  · rw [if_neg (by omega)]

/-- Check of `or_picks_deepest_failure` at concrete errors over the
same six-character buffer: the first error (offset 5, one char left)
progressed further than the second (offset 2, four chars left) and is
kept. -/
theorem or_picks_deepest_failure_check :
    (LangParserError.from_ctx ⟨("abcdef").data, 5, 1⟩ ("deep")).or
      (LangParserError.from_ctx ⟨("abcdef").data, 2, 4⟩ ("shallow")) =
      LangParserError.from_ctx ⟨("abcdef").data, 5, 1⟩ ("deep") := by
  exact (or_picks_deepest_failure
    (LangParserError.from_ctx ⟨("abcdef").data, 5, 1⟩ ("deep"))
    (LangParserError.from_ctx ⟨("abcdef").data, 2, 4⟩ ("shallow")) 6
    (by decide) (by decide) (by decide) (by decide)).1 (by decide)

/-- C4 (code bug): displaying a parse error whose remaining input is
shorter than the 100-byte preview is not total — the byte-slice
`[..100]` in the `Display` implementation is out of range and panics
(modelled by `display` having no value), while an error with at least
100 remaining bytes does display, truncated.  The spec requires the
preview to be truncated to the fixed length so that display never
panics. -/
theorem display_panics_on_short_remaining_input :
    (Span.fromString ("abc")).as_unsafe_remaining_str.length < 100 ∧
    (LangParserError.from_ctx (Span.fromString ("abc")) ("Paragraph")).display
      = none ∧
    (LangParserError.from_ctx
      (Span.fromString (String.mk (List.replicate 100 'a')))
      ("Paragraph")).display ≠ none := by
  refine ⟨by decide, rfl, ?_⟩
  intro h
  simp only [LangParserError.display, LangParserError.from_ctx] at h
  revert h
  decide

theorem link_borrow_then_own : ∀ l : Link, l.to_borrowed.into_owned = l.into_owned
  | .wiki t d => by cases d <;> rfl
  | .diary t d => by cases d <;> rfl
  | .raw t => rfl
  | .transclusion t d => by cases d <;> rfl
  | .interwiki t d => by cases d <;> rfl

theorem link_render_to_borrowed : ∀ l : Link, l.to_borrowed.render = l.render
  | .wiki _ _ => rfl
  | .diary _ _ => rfl
  | .raw _ => rfl
  | .transclusion _ _ => rfl
  | .interwiki _ _ => rfl

theorem link_render_into_owned : ∀ l : Link, l.into_owned.render = l.render
  | .wiki _ _ => rfl
  | .diary _ _ => rfl
  | .raw _ => rfl
  | .transclusion _ _ => rfl
  | .interwiki _ _ => rfl

theorem link_se_bo : ∀ l : Link, l.to_borrowed.strictEq l.into_owned = true
  | .wiki t d => by cases d <;> simp [Link.to_borrowed, Link.into_owned,
      Link.strictEq, CowStr.as_borrowed, CowStr.to_owned, CowStr.value, optValue]
  | .diary t d => by cases d <;> simp [Link.to_borrowed, Link.into_owned,
      Link.strictEq, CowStr.as_borrowed, CowStr.to_owned, CowStr.value, optValue]
  | .raw t => by simp [Link.to_borrowed, Link.into_owned, Link.strictEq,
      CowStr.as_borrowed, CowStr.to_owned, CowStr.value]
  | .transclusion t d => by cases d <;> simp [Link.to_borrowed, Link.into_owned,
      Link.strictEq, CowStr.as_borrowed, CowStr.to_owned, CowStr.value, optValue]
  | .interwiki t d => by cases d <;> simp [Link.to_borrowed, Link.into_owned,
      Link.strictEq, CowStr.as_borrowed, CowStr.to_owned, CowStr.value, optValue]

theorem link_se_refl : ∀ l : Link, l.strictEq l = true
  | .wiki t d => by simp [Link.strictEq]
  | .diary t d => by simp [Link.strictEq]
  | .raw t => by simp [Link.strictEq]
  | .transclusion t d => by simp [Link.strictEq]
  | .interwiki t d => by simp [Link.strictEq]

mutual
theorem dtc_borrow_then_own : ∀ x : DecoratedTextContent,
    x.to_borrowed.into_owned = x.into_owned
  | .text t => rfl
  | .decoratedText d => by
      simp only [DecoratedTextContent.to_borrowed, DecoratedTextContent.into_owned]
      rw [dt_borrow_then_own d]
  | .keyword k => rfl
  | .link l => by
      simp only [DecoratedTextContent.to_borrowed, DecoratedTextContent.into_owned]
      rw [link_borrow_then_own l]
theorem dt_borrow_then_own : ∀ d : DecoratedText,
    d.to_borrowed.into_owned = d.into_owned
  | .bold xs => by
      simp only [DecoratedText.to_borrowed, DecoratedText.into_owned]
      rw [dtclist_borrow_then_own xs]
  | .italic xs => by
      simp only [DecoratedText.to_borrowed, DecoratedText.into_owned]
      rw [dtclist_borrow_then_own xs]
  | .strikeout xs => by
      simp only [DecoratedText.to_borrowed, DecoratedText.into_owned]
      rw [dtclist_borrow_then_own xs]
  | .superscript xs => by
      simp only [DecoratedText.to_borrowed, DecoratedText.into_owned]
      rw [dtclist_borrow_then_own xs]
  | .subscript xs => by
      simp only [DecoratedText.to_borrowed, DecoratedText.into_owned]
      rw [dtclist_borrow_then_own xs]
theorem dtclist_borrow_then_own : ∀ xs : List (Located DecoratedTextContent),
    mapDTCIntoOwned (mapDTCToBorrowed xs) = mapDTCIntoOwned xs
  | [] => rfl
  | ⟨e, r⟩ :: xs => by
      simp only [mapDTCToBorrowed, mapDTCIntoOwned]
      rw [dtc_borrow_then_own e, dtclist_borrow_then_own xs]
end

mutual
theorem dtc_render_to_borrowed : ∀ x : DecoratedTextContent,
    x.to_borrowed.render = x.render
  | .text t => rfl
  | .decoratedText d => by
      simp only [DecoratedTextContent.to_borrowed, DecoratedTextContent.render]
      rw [dt_render_to_borrowed d]
  | .keyword k => rfl
  | .link l => by
      simp only [DecoratedTextContent.to_borrowed, DecoratedTextContent.render]
      rw [link_render_to_borrowed l]
theorem dt_render_to_borrowed : ∀ d : DecoratedText,
    d.to_borrowed.render = d.render
  | .bold xs => by
      simp only [DecoratedText.to_borrowed, DecoratedText.render]
      rw [dtclist_render_to_borrowed xs]
  | .italic xs => by
      simp only [DecoratedText.to_borrowed, DecoratedText.render]
      rw [dtclist_render_to_borrowed xs]
  | .strikeout xs => by
      simp only [DecoratedText.to_borrowed, DecoratedText.render]
      rw [dtclist_render_to_borrowed xs]
  | .superscript xs => by
      simp only [DecoratedText.to_borrowed, DecoratedText.render]
      rw [dtclist_render_to_borrowed xs]
  | .subscript xs => by
      simp only [DecoratedText.to_borrowed, DecoratedText.render]
      rw [dtclist_render_to_borrowed xs]
theorem dtclist_render_to_borrowed : ∀ xs : List (Located DecoratedTextContent),
    renderDTCList (mapDTCToBorrowed xs) = renderDTCList xs
  | [] => rfl
  | ⟨e, r⟩ :: xs => by
      simp only [mapDTCToBorrowed, renderDTCList]
      rw [dtc_render_to_borrowed e, dtclist_render_to_borrowed xs]
end

mutual
theorem dtc_render_into_owned : ∀ x : DecoratedTextContent,
    x.into_owned.render = x.render
  | .text t => rfl
  | .decoratedText d => by
      simp only [DecoratedTextContent.into_owned, DecoratedTextContent.render]
      rw [dt_render_into_owned d]
  | .keyword k => rfl
  | .link l => by
      simp only [DecoratedTextContent.into_owned, DecoratedTextContent.render]
      rw [link_render_into_owned l]
theorem dt_render_into_owned : ∀ d : DecoratedText,
    d.into_owned.render = d.render
  | .bold xs => by
      simp only [DecoratedText.into_owned, DecoratedText.render]
      rw [dtclist_render_into_owned xs]
  | .italic xs => by
      simp only [DecoratedText.into_owned, DecoratedText.render]
      rw [dtclist_render_into_owned xs]
  | .strikeout xs => by
      simp only [DecoratedText.into_owned, DecoratedText.render]
      rw [dtclist_render_into_owned xs]
  | .superscript xs => by
      simp only [DecoratedText.into_owned, DecoratedText.render]
      rw [dtclist_render_into_owned xs]
  | .subscript xs => by
      simp only [DecoratedText.into_owned, DecoratedText.render]
      rw [dtclist_render_into_owned xs]
theorem dtclist_render_into_owned : ∀ xs : List (Located DecoratedTextContent),
    renderDTCList (mapDTCIntoOwned xs) = renderDTCList xs
  | [] => rfl
  | ⟨e, r⟩ :: xs => by
      simp only [mapDTCIntoOwned, renderDTCList]
      rw [dtc_render_into_owned e, dtclist_render_into_owned xs]
end

mutual
theorem dtc_se_bo : ∀ x : DecoratedTextContent,
    x.to_borrowed.strictEq x.into_owned = true
  | .text t => by
      simp [DecoratedTextContent.to_borrowed, DecoratedTextContent.into_owned,
        DecoratedTextContent.strictEq, Text.strictEq, Text.beq, CowStr.beq,
        Text.as_borrowed, Text.into_owned, CowStr.as_borrowed, CowStr.to_owned,
        CowStr.value]
  | .decoratedText d => by
      simp only [DecoratedTextContent.to_borrowed, DecoratedTextContent.into_owned,
        DecoratedTextContent.strictEq]
      exact dt_se_bo d
  | .keyword k => by
      simp [DecoratedTextContent.to_borrowed, DecoratedTextContent.into_owned,
        DecoratedTextContent.strictEq]
  | .link l => by
      simp only [DecoratedTextContent.to_borrowed, DecoratedTextContent.into_owned,
        DecoratedTextContent.strictEq]
      exact link_se_bo l
theorem dt_se_bo : ∀ d : DecoratedText,
    d.to_borrowed.strictEq d.into_owned = true
  | .bold xs => by
      simp only [DecoratedText.to_borrowed, DecoratedText.into_owned,
        DecoratedText.strictEq]
      exact dtclist_se_bo xs
  | .italic xs => by
      simp only [DecoratedText.to_borrowed, DecoratedText.into_owned,
        DecoratedText.strictEq]
      exact dtclist_se_bo xs
  | .strikeout xs => by
      simp only [DecoratedText.to_borrowed, DecoratedText.into_owned,
        DecoratedText.strictEq]
      exact dtclist_se_bo xs
  | .superscript xs => by
      simp only [DecoratedText.to_borrowed, DecoratedText.into_owned,
        DecoratedText.strictEq]
      exact dtclist_se_bo xs
  | .subscript xs => by
      simp only [DecoratedText.to_borrowed, DecoratedText.into_owned,
        DecoratedText.strictEq]
      exact dtclist_se_bo xs
theorem dtclist_se_bo : ∀ xs : List (Located DecoratedTextContent),
    strictEqDTCList (mapDTCToBorrowed xs) (mapDTCIntoOwned xs) = true
  | [] => rfl
  | ⟨e, r⟩ :: xs => by
      simp only [mapDTCToBorrowed, mapDTCIntoOwned, strictEqDTCList,
        Bool.and_eq_true]
      exact ⟨dtc_se_bo e, dtclist_se_bo xs⟩
end

mutual
theorem dtc_se_refl : ∀ x : DecoratedTextContent, x.strictEq x = true
  | .text t => by simp [DecoratedTextContent.strictEq, Text.strictEq, Text.beq, CowStr.beq]
  | .decoratedText d => by
      simp only [DecoratedTextContent.strictEq]
      exact dt_se_refl d
  | .keyword k => by simp [DecoratedTextContent.strictEq]
  | .link l => by
      simp only [DecoratedTextContent.strictEq]
      exact link_se_refl l
theorem dt_se_refl : ∀ d : DecoratedText, d.strictEq d = true
  | .bold xs => by
      simp only [DecoratedText.strictEq]
      exact dtclist_se_refl xs
  | .italic xs => by
      simp only [DecoratedText.strictEq]
      exact dtclist_se_refl xs
  | .strikeout xs => by
      simp only [DecoratedText.strictEq]
      exact dtclist_se_refl xs
  | .superscript xs => by
      simp only [DecoratedText.strictEq]
      exact dtclist_se_refl xs
  | .subscript xs => by
      simp only [DecoratedText.strictEq]
      exact dtclist_se_refl xs
theorem dtclist_se_refl : ∀ xs : List (Located DecoratedTextContent),
    strictEqDTCList xs xs = true
  | [] => rfl
  | ⟨e, r⟩ :: xs => by
      simp only [strictEqDTCList, Bool.and_eq_true]
      exact ⟨dtc_se_refl e, dtclist_se_refl xs⟩
end

theorem ie_borrow_then_own : ∀ x : InlineElement, x.to_borrowed.into_owned = x.into_owned
  | .text _ => rfl
  | .decoratedText d => by
      simp only [InlineElement.to_borrowed, InlineElement.into_owned]
      rw [dt_borrow_then_own d]
  | .keyword _ => rfl
  | .link l => by
      simp only [InlineElement.to_borrowed, InlineElement.into_owned]
      rw [link_borrow_then_own l]
  | .math _ => rfl

theorem ie_render_to_borrowed : ∀ x : InlineElement, x.to_borrowed.render = x.render
  | .text _ => rfl
  | .decoratedText d => by
      simp only [InlineElement.to_borrowed, InlineElement.render]
      rw [dt_render_to_borrowed d]
  | .keyword _ => rfl
  | .link l => by
      simp only [InlineElement.to_borrowed, InlineElement.render]
      rw [link_render_to_borrowed l]
  | .math _ => rfl

theorem ie_render_into_owned : ∀ x : InlineElement, x.into_owned.render = x.render
  | .text _ => rfl
  | .decoratedText d => by
      simp only [InlineElement.into_owned, InlineElement.render]
      rw [dt_render_into_owned d]
  | .keyword _ => rfl
  | .link l => by
      simp only [InlineElement.into_owned, InlineElement.render]
      rw [link_render_into_owned l]
  | .math _ => rfl

theorem ie_se_bo : ∀ x : InlineElement, x.to_borrowed.strictEq x.into_owned = true
  | .text t => by
      simp [InlineElement.to_borrowed, InlineElement.into_owned,
        InlineElement.strictEq, Text.strictEq, Text.beq, CowStr.beq,
        Text.as_borrowed, Text.into_owned, CowStr.as_borrowed, CowStr.to_owned,
        CowStr.value]
  | .decoratedText d => by
      simp only [InlineElement.to_borrowed, InlineElement.into_owned,
        InlineElement.strictEq]
      exact dt_se_bo d
  | .keyword k => by
      simp [InlineElement.to_borrowed, InlineElement.into_owned,
        InlineElement.strictEq]
  | .link l => by
      simp only [InlineElement.to_borrowed, InlineElement.into_owned,
        InlineElement.strictEq]
      exact link_se_bo l
  | .math m => by
      simp [InlineElement.to_borrowed, InlineElement.into_owned,
        InlineElement.strictEq, MathInline.strictEq, MathInline.as_borrowed,
        MathInline.into_owned, CowStr.as_borrowed, CowStr.to_owned, CowStr.value]

theorem ie_se_refl : ∀ x : InlineElement, x.strictEq x = true
  | .text t => by simp [InlineElement.strictEq, Text.strictEq, Text.beq, CowStr.beq]
  | .decoratedText d => by
      simp only [InlineElement.strictEq]
      exact dt_se_refl d
  | .keyword k => by simp [InlineElement.strictEq]
  | .link l => by
      simp only [InlineElement.strictEq]
      exact link_se_refl l
  | .math m => by simp [InlineElement.strictEq, MathInline.strictEq]

theorem cont_borrow_then_own (c : InlineElementContainer) :
    c.to_borrowed.into_owned = c.into_owned := by
  cases c with
  | mk es =>
    simp only [InlineElementContainer.to_borrowed, InlineElementContainer.into_owned]
    congr 1
    induction es with
    | nil => rfl
    | cons x xs ih =>
      simp only [List.map_cons]
      rw [ih]
      congr 1
      cases x with
      | mk e r =>
        simp only [Located.map]
        rw [ie_borrow_then_own e]

theorem cont_render_to_borrowed (c : InlineElementContainer) :
    c.to_borrowed.render = c.render := by
  cases c with
  | mk es =>
    simp only [InlineElementContainer.to_borrowed, InlineElementContainer.render]
    induction es with
    | nil => rfl
    | cons x xs ih =>
      simp only [List.map_cons, List.foldr_cons]
      rw [ih]
      congr 1
      cases x with
      | mk e r =>
        simp only [Located.map]
        exact ie_render_to_borrowed e

theorem cont_render_into_owned (c : InlineElementContainer) :
    c.into_owned.render = c.render := by
  cases c with
  | mk es =>
    simp only [InlineElementContainer.into_owned, InlineElementContainer.render]
    induction es with
    | nil => rfl
    | cons x xs ih =>
      simp only [List.map_cons, List.foldr_cons]
      rw [ih]
      congr 1
      cases x with
      | mk e r =>
        simp only [Located.map]
        exact ie_render_into_owned e

theorem cont_se_bo (c : InlineElementContainer) :
    c.to_borrowed.strictEq c.into_owned = true := by
  cases c with
  | mk es =>
    simp only [InlineElementContainer.strictEq, InlineElementContainer.to_borrowed,
      InlineElementContainer.into_owned, List.length_map, Bool.and_eq_true,
      beq_self_eq_true, true_and]
    induction es with
    | nil => rfl
    | cons x xs ih =>
      simp only [List.map_cons, List.zip_cons_cons, List.all_cons, Located.map,
        Bool.and_eq_true]
      exact ⟨ie_se_bo x.element, ih⟩

theorem cont_se_refl (c : InlineElementContainer) : c.strictEq c = true := by
  cases c with
  | mk es =>
    simp only [InlineElementContainer.strictEq, Bool.and_eq_true,
      beq_self_eq_true, true_and]
    induction es with
    | nil => rfl
    | cons x xs ih =>
      simp only [List.zip_cons_cons, List.all_cons, Bool.and_eq_true]
      exact ⟨ie_se_refl x.element, ih⟩

theorem dlv_borrow_then_own (v : DefinitionListValue) :
    v.to_borrowed.into_owned = v.into_owned := by
  cases v with
  | mk c =>
    simp only [DefinitionListValue.to_borrowed, DefinitionListValue.into_owned]
    rw [cont_borrow_then_own c]

theorem dlv_render_to_borrowed (v : DefinitionListValue) :
    v.to_borrowed.render = v.render := by
  cases v with
  | mk c => exact cont_render_to_borrowed c

theorem dlv_render_into_owned (v : DefinitionListValue) :
    v.into_owned.render = v.render := by
  cases v with
  | mk c => exact cont_render_into_owned c

theorem dlv_se_bo (v : DefinitionListValue) :
    v.to_borrowed.strictEq v.into_owned = true := by
  cases v with
  | mk c => exact cont_se_bo c

theorem dlv_se_refl (v : DefinitionListValue) : v.strictEq v = true := by
  cases v with
  | mk c => exact cont_se_refl c

/-- Key comparison of mapping entries is invariant under the
borrowed/owned conversions of the stored values. -/
theorem dlKeyBeq_map_invariant (a b : Located DefinitionListValue) :
    dlKeyBeq (a.map DefinitionListValue.to_borrowed) (b.map DefinitionListValue.into_owned)
        = dlKeyBeq a b ∧
    dlKeyBeq (a.map DefinitionListValue.to_borrowed) (b.map DefinitionListValue.to_borrowed)
        = dlKeyBeq a b ∧
    dlKeyBeq (a.map DefinitionListValue.into_owned) (b.map DefinitionListValue.into_owned)
        = dlKeyBeq a b := by
  refine ⟨?_, ?_, ?_⟩ <;>
    simp only [dlKeyBeq, locatedBeq, Located.map, DefinitionListValue.beq,
      dlv_render_to_borrowed, dlv_render_into_owned]

/-- Search in a mapped list is search with the composed predicate. -/
theorem find_over_map {α β : Type} (f : α → β) (p : β → Bool) :
    ∀ l : List α, (l.map f).find? p = (l.find? (fun a => p (f a))).map f
  | [] => rfl
  | a :: l => by
      by_cases h : p (f a) = true
      · simp [List.find?, h]
      · simp only [Bool.not_eq_true] at h
        simp [List.find?, h, find_over_map f p l]

/-- In a mapping whose keys are pairwise non-equal (the hash-map
invariant), searching for the key of one of its entries finds exactly
that entry. -/
theorem find_self_of_pairwise :
    ∀ m : List (Located DefinitionListValue × List (Located DefinitionListValue)),
      m.Pairwise (fun p q => dlKeyBeq p.1 q.1 = false) →
      ∀ p ∈ m, m.find? (fun q => dlKeyBeq q.1 p.1) = some p
  | [], _, p, hp => absurd hp (List.not_mem_nil p)
  | a :: l, h, p, hp => by
      rcases List.mem_cons.mp hp with rfl | hmem
      · have hself : dlKeyBeq p.1 p.1 = true := by
          simp [dlKeyBeq, locatedBeq, DefinitionListValue.beq]
        simp [List.find?, hself]
      · have hpair := List.pairwise_cons.mp h
        have hne : dlKeyBeq a.1 p.1 = false := hpair.1 p hmem
        simp only [List.find?, hne]
        exact find_self_of_pairwise l hpair.2 p hmem

/-- Pointwise strict equality of definition vectors after the
borrowed/owned conversions. -/
theorem dldefs_se_bo (v : List (Located DefinitionListValue)) :
    ((v.map (fun x => x.map DefinitionListValue.to_borrowed)).length ==
      (v.map (fun x => x.map DefinitionListValue.into_owned)).length) = true ∧
    (List.zip (v.map (fun x => x.map DefinitionListValue.to_borrowed))
        (v.map (fun x => x.map DefinitionListValue.into_owned))).all
      (fun r => DefinitionListValue.strictEq r.1.element r.2.element) = true := by
  constructor
  · simp
  · induction v with
    | nil => rfl
    | cons x xs ih =>
      simp only [List.map_cons, List.zip_cons_cons, List.all_cons,
        Bool.and_eq_true, Located.map]
      exact ⟨dlv_se_bo x.element, ih⟩

/-- Pointwise strict equality of a definition vector with itself. -/
theorem dldefs_se_refl (v : List (Located DefinitionListValue)) :
    (List.zip v v).all
      (fun r => DefinitionListValue.strictEq r.1.element r.2.element) = true := by
  induction v with
  | nil => rfl
  | cons x xs ih =>
    simp only [List.zip_cons_cons, List.all_cons, Bool.and_eq_true]
    exact ⟨dlv_se_refl x.element, ih⟩

theorem dl_borrow_then_own (dl : DefinitionList) :
    dl.to_borrowed.into_owned = dl.into_owned := by
  cases dl with
  | mk m =>
    simp only [DefinitionList.to_borrowed, DefinitionList.into_owned]
    congr 1
    induction m with
    | nil => rfl
    | cons p ps ih =>
      simp only [List.map_cons]
      rw [ih]
      congr 1
      cases p with
      | mk k v =>
        simp only
        congr 1
        · cases k with
          | mk e r =>
            simp only [Located.map]
            rw [dlv_borrow_then_own e]
        · induction v with
          | nil => rfl
          | cons x xs ihv =>
            simp only [List.map_cons]
            rw [ihv]
            congr 1
            cases x with
            | mk e r =>
              simp only [Located.map]
              rw [dlv_borrow_then_own e]

/-- Strict equality of the borrowed re-view against the owned deep copy
of a definition list whose keys satisfy the hash-map invariant
(pairwise non-equal keys). -/
theorem dl_se_bo (dl : DefinitionList)
    (hdl : dl.mapping.Pairwise (fun p q => dlKeyBeq p.1 q.1 = false)) :
    dl.to_borrowed.strictEq dl.into_owned = true := by
  cases dl with
  | mk m =>
    simp only [DefinitionList.strictEq, DefinitionList.to_borrowed,
      DefinitionList.into_owned, List.length_map, Bool.and_eq_true,
      beq_self_eq_true, true_and]
    rw [List.all_eq_true]
    intro pA hA
    rcases List.mem_map.mp hA with ⟨p, hpm, rfl⟩
    rw [find_over_map]
    have hpred : (fun q : Located DefinitionListValue × List (Located DefinitionListValue) =>
        dlKeyBeq (q.1.map DefinitionListValue.into_owned,
          q.2.map (fun x => x.map DefinitionListValue.into_owned)).1
          (p.1.map DefinitionListValue.to_borrowed,
            p.2.map (fun x => x.map DefinitionListValue.to_borrowed)).1) =
        (fun q => dlKeyBeq q.1 p.1) := by
      funext q
      simp only [dlKeyBeq, locatedBeq, Located.map, DefinitionListValue.beq,
        dlv_render_to_borrowed, dlv_render_into_owned]
    rw [hpred, find_self_of_pairwise m hdl p hpm]
    simp only [Option.map, List.length_map, beq_self_eq_true, true_and,
      Bool.and_eq_true]
    have hzip : ∀ v : List (Located DefinitionListValue),
        ((List.map (fun x => Located.mk x.element.to_borrowed x.lazy_region) v).zip
          (List.map (fun x => Located.mk x.element.into_owned x.lazy_region) v)).all
          (fun r => r.1.element.strictEq r.2.element) = true := by
      intro v
      induction v with
      | nil => rfl
      | cons x xs ih =>
        simp only [List.map_cons, List.zip_cons_cons, List.all_cons,
          Bool.and_eq_true]
        exact ⟨dlv_se_bo x.element, ih⟩
    exact ⟨dlv_se_bo p.1.element, hzip p.2⟩

/-- Strict equality of a definition list with itself, under the
hash-map invariant. -/
theorem dl_se_refl (dl : DefinitionList)
    (hdl : dl.mapping.Pairwise (fun p q => dlKeyBeq p.1 q.1 = false)) :
    dl.strictEq dl = true := by
  cases dl with
  | mk m =>
    simp only [DefinitionList.strictEq, Bool.and_eq_true, beq_self_eq_true,
      true_and]
    rw [List.all_eq_true]
    intro p hp
    rw [find_self_of_pairwise m hdl p hp]
    simp only [Bool.and_eq_true, beq_self_eq_true, true_and]
    exact ⟨dlv_se_refl p.1.element, dldefs_se_refl p.2⟩

/-- The hash-map invariant survives the owned deep copy. -/
theorem dl_pairwise_into_owned (dl : DefinitionList)
    (hdl : dl.mapping.Pairwise (fun p q => dlKeyBeq p.1 q.1 = false)) :
    dl.into_owned.mapping.Pairwise (fun p q => dlKeyBeq p.1 q.1 = false) := by
  cases dl with
  | mk m =>
    simp only [DefinitionList.into_owned]
    rw [List.pairwise_map]
    refine hdl.imp ?_
    intro p q h
    simpa only [dlKeyBeq, locatedBeq, Located.map, DefinitionListValue.beq,
      dlv_render_into_owned] using h

/-- C9: borrowed/owned equivalence.  `clone` is the identity of the
value, so `n.clone().into_owned()` is `n.into_owned()`: for text,
decorated-text content, decorated text, definition-list values and
definition lists (the latter under the hash-map invariant of pairwise
non-equal keys), converting to borrowed and then into owned is
`StrictEq` to converting the clone into owned; moreover the borrowed
and owned forms render to identical text and are structurally equal to
each other. -/
theorem borrowed_owned_equivalence :
    (∀ t : Text,
      (t.as_borrowed.into_owned).strictEq t.into_owned = true ∧
      t.as_borrowed.render = t.into_owned.render ∧
      t.as_borrowed.strictEq t.into_owned = true) ∧
    (∀ x : DecoratedTextContent,
      (x.to_borrowed.into_owned).strictEq x.into_owned = true ∧
      x.to_borrowed.render = x.into_owned.render ∧
      x.to_borrowed.strictEq x.into_owned = true) ∧
    (∀ d : DecoratedText,
      (d.to_borrowed.into_owned).strictEq d.into_owned = true ∧
      d.to_borrowed.render = d.into_owned.render ∧
      d.to_borrowed.strictEq d.into_owned = true) ∧
    (∀ v : DefinitionListValue,
      (v.to_borrowed.into_owned).strictEq v.into_owned = true ∧
      v.to_borrowed.render = v.into_owned.render ∧
      v.to_borrowed.strictEq v.into_owned = true) ∧
    (∀ dl : DefinitionList,
      dl.mapping.Pairwise (fun p q => dlKeyBeq p.1 q.1 = false) →
      (dl.to_borrowed.into_owned).strictEq dl.into_owned = true ∧
      dl.to_borrowed.strictEq dl.into_owned = true) := by
  refine ⟨fun t => ⟨?_, ?_, ?_⟩, fun x => ⟨?_, ?_, ?_⟩, fun d => ⟨?_, ?_, ?_⟩,
    fun v => ⟨?_, ?_, ?_⟩, fun dl hdl => ⟨?_, ?_⟩⟩
  · cases t with
    | mk c => simp [Text.as_borrowed, Text.into_owned, Text.strictEq, Text.beq,
        CowStr.beq, CowStr.as_borrowed, CowStr.to_owned, CowStr.value]
  · cases t with
    | mk c => simp [Text.as_borrowed, Text.into_owned, Text.render,
        CowStr.as_borrowed, CowStr.to_owned, CowStr.value]
  · cases t with
    | mk c => simp [Text.as_borrowed, Text.into_owned, Text.strictEq, Text.beq,
        CowStr.beq, CowStr.as_borrowed, CowStr.to_owned, CowStr.value]
  · rw [dtc_borrow_then_own x]
    exact dtc_se_refl x.into_owned
  · rw [dtc_render_to_borrowed x, dtc_render_into_owned x]
  · exact dtc_se_bo x
  · rw [dt_borrow_then_own d]
    exact dt_se_refl d.into_owned
  · rw [dt_render_to_borrowed d, dt_render_into_owned d]
  · exact dt_se_bo d
  · rw [dlv_borrow_then_own v]
    exact dlv_se_refl v.into_owned
  · rw [dlv_render_to_borrowed v, dlv_render_into_owned v]
  · exact dlv_se_bo v
  · rw [dl_borrow_then_own dl]
    exact dl_se_refl dl.into_owned (dl_pairwise_into_owned dl hdl)
  · exact dl_se_bo dl hdl

/-- Check of `borrowed_owned_equivalence` at a concrete definition
list with one entry, discharging the hash-map invariant. -/
theorem borrowed_owned_equivalence_check :
    (DefinitionList.mk [(Located.fromElement (DefinitionListValue.fromStr ("term")),
        [])]).to_borrowed.strictEq
      (DefinitionList.mk [(Located.fromElement (DefinitionListValue.fromStr ("term")),
        [])]).into_owned = true := by
  exact (borrowed_owned_equivalence.2.2.2.2
    (DefinitionList.mk [(Located.fromElement (DefinitionListValue.fromStr ("term")), [])])
    (by simp [List.pairwise_cons])).2

/-- C3 is refuted at this input: the two textually-identical terms do
collide to one key, but looking up `term` returns only the second
insertion's definitions — not the combined definitions of both
insertions as the claim states. -/
theorem definition_list_lookup_not_combined :
    dlCollide.mapping.length = 1 ∧
    dlCollide.get termSingle = some defsTwo ∧
    dlCollide.get termSingle ≠ some (defsOne ++ defsTwo) := by
  refine ⟨rfl, rfl, fun h => ?_⟩
  have h1 : dlCollide.get termSingle = some defsTwo := rfl
  rw [h1] at h
  have h2 := Option.some.inj h
  have h3 := congrArg List.length h2
  simp [defsOne, defsTwo] at h3

/-- C3 amended: inserting a term rendered as `term` (single text run)
and a term built from four concatenated runs `t`,`e`,`r`,`m` collides
to one key — the terms are equal and hash identically because equality
and hashing are by rendered text — and looking up `term` returns the
definitions of the second insertion only, the second insertion having
overwritten the first's definitions per mapping-insert semantics. -/
theorem definition_list_collision_overwrites
    (d1 d2 : List (Located DefinitionListValue)) :
    DefinitionListValue.beq termSingle termSplit = true ∧
    (∀ h : String → Nat,
      DefinitionListValue.hashWith h termSingle =
        DefinitionListValue.hashWith h termSplit) ∧
    (DefinitionList.fromVec
      [(Located.fromElement termSingle, d1),
       (Located.fromElement termSplit, d2)]).mapping.length = 1 ∧
    (DefinitionList.fromVec
      [(Located.fromElement termSingle, d1),
       (Located.fromElement termSplit, d2)]).get termSingle = some d2 := by
  refine ⟨by decide, fun h => ?_, rfl, rfl⟩
  have hr : termSingle.render = termSplit.render := by decide
  simp [DefinitionListValue.hashWith, hr]

/-- Check of `definition_list_collision_overwrites` at the concrete
definition vectors of the counterexample. -/
theorem definition_list_collision_overwrites_check :
    (DefinitionList.fromVec
      [(Located.fromElement termSingle, defsOne),
       (Located.fromElement termSplit, defsTwo)]).get termSingle
      = some defsTwo := by
  exact (definition_list_collision_overwrites defsOne defsTwo).2.2.2

theorem parseDelimited_no_marker (f : Nat) (marker : List Char) (p : PSpan)
    (h : litMatches marker p.rest = false) : parseDelimited f marker p = none := by
  cases f with
  | zero => rfl
  | succ f => simp [parseDelimited, h]

/-- A plain character begins no decorated text, wiki link, inline math
or keyword. -/
theorem specials_fail_on_plain (f : Nat) (pv : Option Char) (c : Char)
    (rest : List Char) (hc : plainChar c = true) :
    parseDecorated f ⟨pv, c :: rest⟩ = none ∧
    parseWikiLink ⟨pv, c :: rest⟩ = none ∧
    parseMathInline ⟨pv, c :: rest⟩ = none ∧
    parseKeyword ⟨pv, c :: rest⟩ = none := by
  simp only [plainChar, Bool.not_eq_eq_eq_not, Bool.not_true,
    Bool.or_eq_false_iff, beq_eq_false_iff_ne, ne_eq] at hc
  obtain ⟨⟨⟨⟨⟨⟨⟨⟨⟨⟨⟨⟨hstar, hund⟩, htil⟩, hcar⟩, hcom⟩, hdol⟩, hbra⟩, hnl⟩,
    hT⟩, hD⟩, hS⟩, hF⟩, hX⟩ := hc
  refine ⟨?_, ?_, ?_, ?_⟩
  · cases f with
    | zero => rfl
    | succ f =>
      have m1 : litMatches (['*']) (c :: rest) = false := by
        simp [litMatches, beq_eq_false_iff_ne, Ne.symm hstar]
      have m2 : litMatches (['_']) (c :: rest) = false := by
        simp [litMatches, beq_eq_false_iff_ne, Ne.symm hund]
      have m3 : litMatches (['~', '~']) (c :: rest) = false := by
        simp [litMatches, beq_eq_false_iff_ne, Ne.symm htil]
      have m4 : litMatches (['^']) (c :: rest) = false := by
        simp [litMatches, beq_eq_false_iff_ne, Ne.symm hcar]
      have m5 : litMatches ([',', ',']) (c :: rest) = false := by
        simp [litMatches, beq_eq_false_iff_ne, Ne.symm hcom]
      simp [parseDecorated,
        parseDelimited_no_marker f (['*']) ⟨pv, c :: rest⟩ m1,
        parseDelimited_no_marker f (['_']) ⟨pv, c :: rest⟩ m2,
        parseDelimited_no_marker f (['~', '~']) ⟨pv, c :: rest⟩ m3,
        parseDelimited_no_marker f (['^']) ⟨pv, c :: rest⟩ m4,
        parseDelimited_no_marker f ([',', ',']) ⟨pv, c :: rest⟩ m5]
  · unfold parseWikiLink
    split
    · rename_i heq
      rw [List.cons.injEq] at heq
      exact absurd heq.1 hbra
    · rfl
  · unfold parseMathInline
    split
    · rename_i heq
      rw [List.cons.injEq] at heq
      exact absurd heq.1 hdol
    · rfl
  · have kT : ('T' == c) = false := beq_eq_false_iff_ne.mpr (Ne.symm hT)
    have kD : ('D' == c) = false := beq_eq_false_iff_ne.mpr (Ne.symm hD)
    have kS : ('S' == c) = false := beq_eq_false_iff_ne.mpr (Ne.symm hS)
    have kF : ('F' == c) = false := beq_eq_false_iff_ne.mpr (Ne.symm hF)
    have kX : ('X' == c) = false := beq_eq_false_iff_ne.mpr (Ne.symm hX)
    simp [parseKeyword, keywordLiterals, List.find?, litMatches, kT, kD, kS,
      kF, kX]

/-- One step of the inline scan on a plain character: the character is
taken as coalesced text. -/
theorem containerLoop_step_plain (f : Nat) (pv : Option Char) (c : Char)
    (rest : List Char) (hc : plainChar c = true) :
    containerLoop (f + 1) ⟨pv, c :: rest⟩ =
      match containerLoop f ⟨some c, rest⟩ with
      | some (xs, q2) => some (consTextIE c xs, q2)
      | none => none := by
  obtain ⟨hd, hw, hm, hk⟩ := specials_fail_on_plain f pv c rest hc
  have hnl : c ≠ '\n' := by
    intro h
    rw [h] at hc
    simp [plainChar] at hc
  conv_lhs => rw [containerLoop]
  simp only [hd, hw, hm, hk, PSpan.advanceN]

/-- The inline scan of a nonempty run of plain characters ending at a
newline or the end of input produces a single coalesced text node and
stops at the line end. -/
theorem containerLoop_plain_run :
    ∀ (cs : List Char) (f : Nat) (pv : Option Char) (tail : List Char),
      cs ≠ [] → (∀ c ∈ cs, plainChar c = true) →
      (tail = [] ∨ ∃ t2, tail = '\n' :: t2) →
      cs.length + 1 ≤ f →
      ∃ pvf, containerLoop f ⟨pv, cs ++ tail⟩ =
        some ([Located.fromElement (.text ⟨.borrowed (String.mk cs)⟩)],
          ⟨pvf, tail⟩)
  | [], _, _, _, hne, _, _, _ => absurd rfl hne
  | c :: cs, f, pv, tail, _, hpl, htail, hf => by
    have hc : plainChar c = true := hpl c (List.mem_cons_self c cs)
    obtain ⟨f1, rfl⟩ : ∃ f1, f = f1 + 1 := by
      cases f with
      | zero => omega
      | succ f1 => exact ⟨f1, rfl⟩
    rw [List.cons_append, containerLoop_step_plain f1 pv c (cs ++ tail) hc]
    cases cs with
    | nil =>
      have hloop : containerLoop f1 ⟨some c, tail⟩ = some ([], ⟨some c, tail⟩) := by
        obtain ⟨f2, rfl⟩ : ∃ f2, f1 = f2 + 1 := by
          cases f1 with
          | zero => simp at hf
          | succ f2 => exact ⟨f2, rfl⟩
        rcases htail with rfl | ⟨t2, rfl⟩
        · rfl
        · rfl
      rw [List.nil_append, hloop]
      exact ⟨some c, rfl⟩
    | cons c2 cs2 =>
      have hne2 : c2 :: cs2 ≠ [] := by simp
      have hpl2 : ∀ x ∈ c2 :: cs2, plainChar x = true := by
        intro x hx
        exact hpl x (List.mem_cons_of_mem c hx)
      have hf2 : (c2 :: cs2).length + 1 ≤ f1 := by
        simp only [List.length_cons] at hf ⊢
        omega
      obtain ⟨pvf, hloop⟩ :=
        containerLoop_plain_run (c2 :: cs2) f1 (some c) tail hne2 hpl2 htail hf2
      rw [hloop]
      exact ⟨pvf, rfl⟩

/-- The inline-container production on a plain line yields one text
node. -/
theorem container_plain_run (cs : List Char) (f : Nat) (pv : Option Char)
    (tail : List Char) (h1 : cs ≠ []) (h2 : ∀ c ∈ cs, plainChar c = true)
    (h3 : tail = [] ∨ ∃ t2, tail = '\n' :: t2) (h4 : cs.length + 1 ≤ f) :
    ∃ pvf, inline_component_container f ⟨pv, cs ++ tail⟩ =
      some (⟨[Located.fromElement (.text ⟨.borrowed (String.mk cs)⟩)]⟩,
        ⟨pvf, tail⟩) := by
  obtain ⟨pvf, hcl⟩ := containerLoop_plain_run cs f pv tail h1 h2 h3 h4
  refine ⟨pvf, ?_⟩
  simp [inline_component_container, hcl]

/-- A line holding a non-whitespace character is not blank. -/
theorem blankLineCount_nonblank :
    ∀ (cs tail : List Char), (∀ c ∈ cs, plainChar c = true) →
      (∃ c ∈ cs, isSpaceTab c = false) →
      blankLineCount (cs ++ tail) = none
  | [], _, _, hex => by simp at hex
  | c :: cs, tail, hpl, hex => by
    have hnl : c ≠ '\n' := by
      have := hpl c (List.mem_cons_self c cs)
      intro h
      rw [h] at this
      simp [plainChar] at this
    by_cases hws : isSpaceTab c = true
    · have hex2 : ∃ x ∈ cs, isSpaceTab x = false := by
        rcases hex with ⟨x, hx, hxf⟩
        rcases List.mem_cons.mp hx with rfl | hx2
        · rw [hws] at hxf
          exact absurd hxf (by simp)
        · exact ⟨x, hx2, hxf⟩
      have ih := blankLineCount_nonblank cs tail
        (fun x hx => hpl x (List.mem_cons_of_mem c hx)) hex2
      simp [blankLineCount, hnl, hws, ih]
    · simp only [Bool.not_eq_true] at hws
      simp [blankLineCount, hnl, hws]

theorem flatLines_cons (l : List Char) (ls : List (List Char)) :
    flatLines (l :: ls) = l ++ '\n' :: flatLines ls := by
  simp [flatLines, List.append_assoc]

/-- The paragraph's line loop over good lines followed by a blank line
or the end of input: it produces exactly one container per line and
stops right before the blank line / at the end. -/
theorem lineLoop_lines :
    ∀ (lines : List (List Char)) (f : Nat) (pv : Option Char) (tail : List Char),
      (∀ l ∈ lines, goodLine l) →
      (tail = [] ∨ ∃ t2, tail = '\n' :: t2) →
      (flatLines lines).length + 2 ≤ f →
      ∃ pvf, lineLoop f ⟨pv, flatLines lines ++ tail⟩ =
        some (lines.map lineToContainer, ⟨pvf, tail⟩)
  | [], f, pv, tail, _, htail, hf => by
    obtain ⟨f1, rfl⟩ : ∃ f1, f = f1 + 1 := by
      cases f with
      | zero => omega
      | succ f1 => exact ⟨f1, rfl⟩
    refine ⟨pv, ?_⟩
    have h0 : flatLines ([] : List (List Char)) ++ tail = tail := by
      simp [flatLines]
    rw [h0]
    have hblank : ∃ q, blank_line ⟨pv, tail⟩ = some q := by
      rcases htail with rfl | ⟨t2, rfl⟩
      · exact ⟨_, rfl⟩
      · exact ⟨_, rfl⟩
    obtain ⟨q, hq⟩ := hblank
    simp [lineLoop, notP, hq, flatLines]
  | l :: ls, f, pv, tail, hg, htail, hf => by
    obtain ⟨f1, rfl⟩ : ∃ f1, f = f1 + 1 := by
      cases f with
      | zero => omega
      | succ f1 => exact ⟨f1, rfl⟩
    obtain ⟨hlne, hlpl, hlws⟩ := hg l (List.mem_cons_self l ls)
    have hinput : flatLines (l :: ls) ++ tail = l ++ '\n' :: (flatLines ls ++ tail) := by
      rw [flatLines_cons]
      simp [List.append_assoc]
    have hblank : blank_line ⟨pv, flatLines (l :: ls) ++ tail⟩ = none := by
      rw [hinput]
      have := blankLineCount_nonblank l ('\n' :: (flatLines ls ++ tail)) hlpl hlws
      simp [blank_line, this]
    have hflen : (flatLines (l :: ls)).length = l.length + 1 + (flatLines ls).length := by
      rw [flatLines_cons]
      simp
      omega
    obtain ⟨pv1, hcont⟩ := container_plain_run l f1 pv ('\n' :: (flatLines ls ++ tail))
      hlne hlpl (Or.inr ⟨flatLines ls ++ tail, rfl⟩) (by omega)
    obtain ⟨pvf, hrec⟩ := lineLoop_lines ls f1 (some '\n') tail
      (fun x hx => hg x (List.mem_cons_of_mem l hx)) htail (by omega)
    refine ⟨pvf, ?_⟩
    conv_lhs => rw [lineLoop]
    rw [hinput] at hblank ⊢
    simp only [notP, hblank, hcont, end_of_line_or_input, hrec, List.map_cons,
      lineToContainer]

/-- C7: the paragraph production rejects an indented first line — every
input whose first character is a space or tab fails with a parse error
(no paragraph is produced, letting another block production try), and
conversely every accepted input starts with a non-whitespace
character. -/
theorem paragraph_indentation_guard :
    (∀ (f : Nat) (c : Char) (cs : List Char), isSpaceTab c = true →
      paragraph f ⟨none, c :: cs⟩ = none) ∧
    (∀ (f : Nat) (cs : List Char) (r : Paragraph × PSpan),
      paragraph f ⟨none, cs⟩ = some r →
      ∀ (c : Char) (cs2 : List Char), cs = c :: cs2 → isSpaceTab c = false) := by
  have h1 : ∀ (f : Nat) (c : Char) (cs : List Char), isSpaceTab c = true →
      paragraph f ⟨none, c :: cs⟩ = none := by
    intro f c cs hc
    have hsp : space1 ⟨none, c :: cs⟩ =
        some ((), PSpan.advanceN ⟨none, c :: cs⟩
          ((List.takeWhile isSpaceTab (c :: cs)).length)) := by
      simp [space1, List.takeWhile, hc]
    simp [paragraph, beginning_of_line, notP, hsp]
  refine ⟨h1, ?_⟩
  intro f cs r hr c cs2 hcs
  by_contra hws
  simp only [Bool.not_eq_false] at hws
  rw [hcs, h1 f c cs2 hws] at hr
  exact Option.noConfusion hr

/-- Check of `paragraph_indentation_guard` at the spec's scenario
input: a line beginning with a space fails paragraph parsing. -/
theorem paragraph_indentation_guard_check :
    paragraph 30 ⟨none, (" some text\n").data⟩ = none := by
  exact paragraph_indentation_guard.1 30 ' ' (("some text\n").data) (by decide)

theorem containers_flatten (lines : List (List Char)) :
    ((lines.map lineToContainer).map InlineElementContainer.elements).flatten =
      lines.map (fun l => Located.fromElement (.text ⟨.borrowed (String.mk l)⟩)) := by
  induction lines with
  | nil => rfl
  | cons l ls ih =>
    simp only [List.map_cons, List.flatten_cons, ih]
    rfl

/-- The paragraph production on good lines followed by a blank line or
the end of the input. -/
theorem paragraph_lines (c1 : Char) (r1 : List Char) (la2 : List (List Char))
    (pv : Option Char) (tail : List Char) (f : Nat)
    (hpv : pv = none ∨ pv = some '\n')
    (hg : ∀ l ∈ (c1 :: r1) :: la2, goodLine l)
    (hw1 : isSpaceTab c1 = false)
    (htail : tail = [] ∨ ∃ t2, tail = '\n' :: t2)
    (hf : (flatLines ((c1 :: r1) :: la2)).length + 2 ≤ f) :
    ∃ pvf, paragraph f ⟨pv, flatLines ((c1 :: r1) :: la2) ++ tail⟩ =
      some (mkPara ((c1 :: r1) :: la2), ⟨pvf, tail⟩) := by
  obtain ⟨pvf, hloop⟩ := lineLoop_lines ((c1 :: r1) :: la2) f pv tail hg htail hf
  refine ⟨pvf, ?_⟩
  have hbl : beginning_of_line ⟨pv, flatLines ((c1 :: r1) :: la2) ++ tail⟩ =
      some ((), ⟨pv, flatLines ((c1 :: r1) :: la2) ++ tail⟩) := by
    rcases hpv with rfl | rfl
    · rfl
    · rfl
  have hinput : flatLines ((c1 :: r1) :: la2) ++ tail =
      c1 :: (r1 ++ '\n' :: (flatLines la2 ++ tail)) := by
    rw [flatLines_cons]
    simp [List.append_assoc]
  have hsp : space1 ⟨pv, flatLines ((c1 :: r1) :: la2) ++ tail⟩ = none := by
    rw [hinput]
    simp [space1, List.takeWhile, hw1]
  simp only [paragraph, hbl, notP, hsp, hloop, List.map_cons]
  have hcf := containers_flatten ((c1 :: r1) :: la2)
  simp only [List.map_cons] at hcf
  rw [hcf]
  rfl

/-- C8: for an input made of a first paragraph (one or more plain
lines, unindented first line), a blank line, and a second paragraph,
the paragraph production succeeds with a single paragraph node whose
content comes only from the lines before the blank line, leaves the
remaining input starting at (not past) the blank line, and a second
run (after the blank separator line is consumed) yields the second
paragraph, distinct whenever the texts differ — a paragraph never
crosses a blank line. -/
theorem paragraph_stops_at_blank_line (c1 : Char) (r1 : List Char)
    (la2 : List (List Char)) (c2 : Char) (r2 : List Char)
    (lb2 : List (List Char)) (f : Nat)
    (hga : ∀ l ∈ (c1 :: r1) :: la2, goodLine l)
    (hgb : ∀ l ∈ (c2 :: r2) :: lb2, goodLine l)
    (hw1 : isSpaceTab c1 = false) (hw2 : isSpaceTab c2 = false)
    (hf : (flatLines ((c1 :: r1) :: la2)).length +
      (flatLines ((c2 :: r2) :: lb2)).length + 4 ≤ f) :
    (∃ pvf, paragraph f
        ⟨none, flatLines ((c1 :: r1) :: la2) ++ '\n' :: flatLines ((c2 :: r2) :: lb2)⟩ =
      some (mkPara ((c1 :: r1) :: la2),
        ⟨pvf, '\n' :: flatLines ((c2 :: r2) :: lb2)⟩)) ∧
    (∃ pvf2, paragraph f ⟨some '\n', flatLines ((c2 :: r2) :: lb2)⟩ =
      some (mkPara ((c2 :: r2) :: lb2), ⟨pvf2, []⟩)) ∧
    ((c1 :: r1) :: la2 ≠ (c2 :: r2) :: lb2 →
      mkPara ((c1 :: r1) :: la2) ≠ mkPara ((c2 :: r2) :: lb2)) := by
  refine ⟨?_, ?_, ?_⟩
  · exact paragraph_lines c1 r1 la2 none
      ('\n' :: flatLines ((c2 :: r2) :: lb2)) f (Or.inl rfl) hga hw1
      (Or.inr ⟨flatLines ((c2 :: r2) :: lb2), rfl⟩) (by omega)
  · have h := paragraph_lines c2 r2 lb2 (some '\n') [] f (Or.inr rfl) hgb hw2
      (Or.inl rfl) (by omega)
    simpa using h
  · intro hne heq
    apply hne
    have h1 := congrArg (fun p : Paragraph => p.content.elements) heq
    simp only [mkPara] at h1
    have h2 : ∀ (u v : List (List Char)),
        u.map (fun l => Located.fromElement
          (InlineElement.text ⟨.borrowed (String.mk l)⟩)) =
        v.map (fun l => Located.fromElement
          (InlineElement.text ⟨.borrowed (String.mk l)⟩)) → u = v := by
      intro u
      induction u with
      | nil =>
        intro v hv
        cases v with
        | nil => rfl
        | cons x xs => simp at hv
      | cons x xs ih =>
        intro v hv
        cases v with
        | nil => simp at hv
        | cons y ys =>
          simp only [List.map_cons, List.cons.injEq] at hv
          have hx : x = y := by
            have := congrArg (fun l : Located InlineElement => l.element) hv.1
            simp only [Located.fromElement] at this
            rw [InlineElement.text.injEq] at this
            have := congrArg Text.content this
            rw [CowStr.borrowed.injEq] at this
            have := congrArg String.data this
            simpa using this
          rw [hx, ih ys hv.2]
    exact h2 _ _ h1

/-- Check of `paragraph_stops_at_blank_line` at the concrete input
`abc`, a blank line, `de`: the first parse stops at the blank line. -/
theorem paragraph_stops_at_blank_line_check :
    ∃ pvf, paragraph 30 ⟨none, ("abc\n\nde\n").data⟩ =
      some (mkPara [("abc").data], ⟨pvf, ("\nde\n").data⟩) := by
  exact (paragraph_stops_at_blank_line 'a' (("bc").data) [] 'd' (("e").data) []
    30 (by decide) (by decide) (by decide) (by decide) (by decide)).1

/-- C2 is refuted at this input: the display of a bold node writes only
its content without the decoration markers, so re-parsing the rendered
text yields a plain text node, which is not `StrictEq` to the original
bold node. -/
theorem decorated_text_roundtrip_fails :
    boldDecorations.render = ("decorations") ∧
    parseInline (("decorations")) =
      some ([Located.fromElement (.text ⟨.borrowed ("decorations")⟩)], []) ∧
    InlineElement.strictEq (.decoratedText boldDecorations)
      (.text ⟨.borrowed ("decorations")⟩) = false := by
  refine ⟨by decide, by rfl, rfl⟩

/-- C2 amended: rendering a decorated-text node writes its contents'
text without the decoration markers, so for a bold node over a plain
text run the render-then-reparse pipeline returns a plain text node
carrying the same rendered text — not a node `StrictEq` to the original
bold node; render→parse preserves the rendered text but not the
decoration structure. -/
theorem decorated_render_reparse (cs : List Char) (hne : cs ≠ [])
    (hpl : ∀ c ∈ cs, plainChar c = true) :
    (DecoratedText.bold
      [Located.fromElement (.text ⟨.borrowed (String.mk cs)⟩)]).render
      = String.mk cs ∧
    parseInline (String.mk cs) =
      some ([Located.fromElement (.text ⟨.borrowed (String.mk cs)⟩)], []) ∧
    InlineElement.strictEq
      (.decoratedText (.bold
        [Located.fromElement (.text ⟨.borrowed (String.mk cs)⟩)]))
      (.text ⟨.borrowed (String.mk cs)⟩) = false := by
  refine ⟨?_, ?_, rfl⟩
  · show String.mk cs ++ ("") = String.mk cs
    cases hs : String.mk cs with
    | mk data =>
      show String.mk (data ++ []) = String.mk data
      rw [List.append_nil]
  · obtain ⟨pvf, h⟩ := container_plain_run cs (2 * cs.length + 4) none []
      hne hpl (Or.inl rfl) (by omega)
    rw [List.append_nil] at h
    simp [parseInline, h]

/-- Check of `decorated_render_reparse` at the two-character run
`xy`. -/
theorem decorated_render_reparse_check :
    parseInline (String.mk ['x', 'y']) =
      some ([Located.fromElement (.text ⟨.borrowed (String.mk ['x', 'y'])⟩)], []) := by
  exact (decorated_render_reparse ['x', 'y'] (by decide) (by decide)).2.1

end Vimwiki

